import Mathlib

/-!
Verification of the SMZZL steganographic crypto container (src/config.js,
src/error.js, src/util.js, src/header.js, src/crypto.js).

The JavaScript sources are embedded shallowly:

* `Uint8ClampedArray` values are `List ℕ` of byte values; element reads out of
  bounds yield JS `undefined`, modelled as `none` from `List.getElem?`; element
  writes out of bounds are silently ignored, which is exactly `List.set`'s
  behaviour; an in-bounds write of `undefined` stores 0 (NaN clamps to 0).
* `TypedArray.prototype.subarray(b, e)` clamps its range and never throws; it
  is modelled with `List.drop`/`List.take`.
* `new Uint8ClampedArray(len)` with a fractional `len` truncates (`ToIndex`
  applies `ToIntegerOrInfinity`), so an allocation of `pixels * 3` bytes with
  `pixels = n / 4` allocates `⌊3n/4⌋` bytes, written `3 * n / 4` on `ℕ`.
* JS 32-bit operators (`>>`, `&`) on a nonnegative integer `num` agree with
  arithmetic on `num % 2^32`, which the embedding uses.
* `window.crypto.getRandomValues` is modelled by an explicit random byte
  source `Rng` threaded through the functions in source call order.
* The external collaborators (WebCrypto AEAD and digest, the @vivaxy/png
  codec) are parameters collected in `Collab`; theorems assume exactly the
  collaborator contracts stated in the specification (PNG decode inverts
  encode, AEAD decrypt inverts encrypt, AEAD output is plaintext plus tag).
* Thrown exceptions are modelled by `Except` for caught regions and by the
  `Outcome.uncaught` constructor where an exception escapes the public API.
-/

set_option maxHeartbeats 1000000
set_option maxRecDepth 8192

namespace Smzzl

/-! ## config.js -/

def SMZZL_VERSION : List ℕ := [0x03]

def SMZZL_IDENTIFIER : List ℕ := [0x53, 0x4d, 0x5a, 0x5a, 0x4c]

def HEADERHEIGHT_INDEX : ℕ := 80

def FOOTERHEIGHT_INDEX : ℕ := 84

def HEADER_MINIMUM_LENGTH : ℕ := 92

def IDENTIFIER_LENGTH : ℕ := 5

def VERSION_LENGTH : ℕ := 1

def FLAG_LENGTH : ℕ := 2

def NUMBER_LENGTH : ℕ := 4

def IV_LENGTH : ℕ := 16

def TAG_LENGTH : ℕ := 16

def KEY_LENGTH : ℕ := 32

/-! ## error.js

Only the error kind and the short sub-reason passed to the constructor are
modelled; the human-readable message prefixes carry no further information. -/

inductive SmzzlError where
  | imageType
  | crypto (msg : String)
  | decoding (msg : String)
  | encoding (msg : String)
deriving DecidableEq

/-- The `{ output, error }` object returned by `encrypt` and `decrypt`. -/
structure CallResult where
  output : Option (List ℕ)
  error : Option SmzzlError
deriving DecidableEq

/-- Result of calling a public entry point: either a returned
`{ output, error }` object, or an exception escaping the call. -/
inductive Outcome where
  | ret (r : CallResult)
  | uncaught (msg : String)
deriving DecidableEq

/-- A JavaScript value passed as the `pw` argument. -/
inductive JSVal where
  | str (s : String)
  | num (n : Int)
  | null
  | undefined
deriving DecidableEq

/-- The password values for which `typeof pw === 'string' && pw !== ''`
holds, as used by `encrypt` (crypto.js line 30) and by the mirrored check
`typeof pw !== 'string' || pw === ''` in `decrypt` (crypto.js line 162). -/
def pwNonEmpty : JSVal → Option String
  | .str s => if s = "" then none else some s
  | _ => none

/-! ## Random source (window.crypto.getRandomValues) -/

/-- An explicit random byte source: an infinite stream plus a cursor.
`window.crypto.getRandomValues(new Uint8ClampedArray(n))` returns the next
`n` bytes of the stream and advances the cursor. -/
structure Rng where
  stream : ℕ → ℕ
  pos : ℕ

/-- The `n` bytes produced by the next `getRandomValues` call. -/
def randBytes (rng : Rng) (n : ℕ) : List ℕ :=
  (List.range n).map (fun i => rng.stream (rng.pos + i) % 256)

/-- The source after consuming `n` bytes. -/
def advance (rng : Rng) (n : ℕ) : Rng :=
  ⟨rng.stream, rng.pos + n⟩

/-! ## util.js -/

/-- util.js `toRGB` (lines 9-18): `pixels = array.length / 4` is a JS
rational; the allocation `new Uint8ClampedArray(pixels * 3)` truncates to
`⌊3n/4⌋` bytes and the loop `for (i = 0; i < pixels; i++)` runs `⌈n/4⌉`
times, each iteration copying bytes `4i, 4i+1, 4i+2` to `3i, 3i+1, 3i+2`
(out-of-bounds writes ignored, out-of-bounds reads give `undefined`, stored
as 0 when the write is in bounds). `toRGBStep` is one loop iteration;
`toRGB` is the allocation plus the loop. -/
def toRGBStep (array result : List ℕ) (i : ℕ) : List ℕ :=
  ((result.set (i * 3) ((array[i * 4]?).getD 0)).set
      (i * 3 + 1) ((array[i * 4 + 1]?).getD 0)).set
      (i * 3 + 2) ((array[i * 4 + 2]?).getD 0)

def toRGB (array : List ℕ) : List ℕ :=
  (List.range ((array.length + 3) / 4)).foldl (toRGBStep array)
    (List.replicate (3 * array.length / 4) 0)

/-- util.js `toRGBA` (lines 25-35): `pixels = array.length / 3`; allocation
`pixels * 4` truncates to `⌊4n/3⌋` bytes; the loop runs `⌈n/3⌉` times,
copying bytes `3i, 3i+1, 3i+2` to `4i, 4i+1, 4i+2` and storing 255 at
`4i+3`, with the same out-of-bounds conventions as `toRGB`. `toRGBAStep`
is one loop iteration; `toRGBA` is the allocation plus the loop. -/
def toRGBAStep (array result : List ℕ) (i : ℕ) : List ℕ :=
  (((result.set (i * 4) ((array[i * 3]?).getD 0)).set
      (i * 4 + 1) ((array[i * 3 + 1]?).getD 0)).set
      (i * 4 + 2) ((array[i * 3 + 2]?).getD 0)).set
      (i * 4 + 3) 255

def toRGBA (array : List ℕ) : List ℕ :=
  (List.range ((array.length + 2) / 3)).foldl (toRGBAStep array)
    (List.replicate (4 * array.length / 3) 0)

/-! ## header.js -/

/-- header.js `encodeUint` (lines 93-103): big-endian uint32 via JS 32-bit
shifts, which reduce the operand modulo `2^32` first. -/
def encodeUint (num : ℕ) : List ℕ :=
  [num % 2 ^ 32 / 2 ^ 24 % 256, num % 2 ^ 32 / 2 ^ 16 % 256,
   num % 2 ^ 32 / 2 ^ 8 % 256, num % 2 ^ 32 % 256]

/-- header.js `decodeUint` (lines 105-111): if any of the four bytes is
missing (`undefined`), the JS arithmetic produces `NaN`, modelled as
`none`. -/
def decodeUint (array : List ℕ) : Option ℕ :=
  match array[0]?, array[1]?, array[2]?, array[3]? with
  | some b0, some b1, some b2, some b3 =>
    some (b0 * 0x01000000 + b1 * 0x00010000 + b2 * 0x00000100 + b3)
  | _, _, _, _ => none

/-- header.js `verifyIdentifier` (lines 113-118): `data[i] !== magic[i]`
is true (so the function returns false) whenever `data[i]` is `undefined`. -/
def verifyIdentifier (data : List ℕ) : Bool :=
  (List.range SMZZL_IDENTIFIER.length).all (fun i =>
    match data[i]? with
    | some b => b == SMZZL_IDENTIFIER.getD i 0
    | none => false)

/-- Result of header.js `encodeHeader`: the camouflage block, the patched
header height, and the random source after the call. -/
structure EncodedHeader where
  headerData : List ℕ
  headerHeight : ℕ
  rngOut : Rng

/-- header.js `encodeHeader` (lines 8-51). `setForward` writes the fields
contiguously into a fixed 92-byte block, rendered here as a concatenation
padded (or truncated) to 92 bytes; with the field widths used by `encrypt`
(16-byte iv, 16-byte tag, 32-byte key) the concatenation is exactly 92 bytes
and no `set` can overflow, matching the source, which would throw otherwise.
When `usePassword` is set the key argument is replaced by 32 fresh random
bytes (line 29) before being written. `headerHeight` is
`Math.ceil(92 / (3w))`, patched into the block at byte 80; the returned
block is `headerHeight * 3 * w` random bytes overwritten with the 92
metadata bytes (the embedding assumes `w ≥ 1`; at `w = 0` the source divides
by zero). The `area` parameter is unimplemented in the source
(`areaDataLength = 0`). -/
def encodeHeader (rng : Rng) (w h : ℕ) (iv tag : List ℕ) (usePassword : Bool)
    (keyBytes : List ℕ) : EncodedHeader :=
  let flagArray : List ℕ := if usePassword then [0x80, 0x00] else [0x00, 0x00]
  let keyB := if usePassword then randBytes rng KEY_LENGTH else keyBytes
  let rng1 := if usePassword then advance rng KEY_LENGTH else rng
  let pieces := SMZZL_IDENTIFIER ++ SMZZL_VERSION ++ flagArray ++ encodeUint w ++
    encodeUint h ++ iv ++ tag ++ keyB ++ List.replicate NUMBER_LENGTH 0 ++
    List.replicate NUMBER_LENGTH 0 ++ encodeUint 0
  let metaData := pieces.take HEADER_MINIMUM_LENGTH ++
    List.replicate (HEADER_MINIMUM_LENGTH - pieces.length) 0
  let rowDataLength := 3 * w
  let headerHeight := (HEADER_MINIMUM_LENGTH + rowDataLength - 1) / rowDataLength
  let metaData1 := metaData.take HEADERHEIGHT_INDEX ++ encodeUint headerHeight ++
    metaData.drop (HEADERHEIGHT_INDEX + NUMBER_LENGTH)
  let headerDataLength := headerHeight * rowDataLength
  let camo := randBytes rng1 headerDataLength
  ⟨metaData1 ++ camo.drop HEADER_MINIMUM_LENGTH, headerHeight,
    advance rng1 headerDataLength⟩

/-- The header object produced by header.js `decodeHeader`. Numeric fields
are `Option ℕ` because a read past the end of the buffer yields `NaN`
(`none`); byte-range fields are the clamped `subarray` slices. -/
structure SmzzlHeader where
  signiture : List ℕ
  version : ℕ
  usePassword : Bool
  w : Option ℕ
  h : Option ℕ
  iv : List ℕ
  tag : List ℕ
  keyBytes : List ℕ
  headerHeight : Option ℕ
  footerHeight : Option ℕ
  areaDataLength : Option ℕ
deriving DecidableEq

/-- header.js `decodeHeader` (lines 56-87). `readForward` uses `subarray`,
which clamps to the buffer and never throws, so the `try/catch` around the
reads can never fire: the only failure is the version comparison
(`version[0] !== 3`, which also fails when byte 5 is missing). The magic
identifier is read but not compared. `usePassword` is
`(flagArray[0] & 0x80) && true`, falsy when byte 6 is missing
(`undefined & 0x80` is 0). -/
def decodeHeader (imageData : List ℕ) : Option SmzzlHeader :=
  match imageData[5]? with
  | some v =>
    if v = 3 then
      some
        { signiture := (imageData.drop 0).take 5
          version := v
          usePassword := ((imageData[6]?).getD 0).land 0x80 ≠ 0
          w := decodeUint ((imageData.drop 8).take 4)
          h := decodeUint ((imageData.drop 12).take 4)
          iv := (imageData.drop 16).take 16
          tag := (imageData.drop 32).take 16
          keyBytes := (imageData.drop 48).take 32
          headerHeight := decodeUint ((imageData.drop 80).take 4)
          footerHeight := decodeUint ((imageData.drop 84).take 4)
          areaDataLength := decodeUint ((imageData.drop 88).take 4) }
    else none
  | none => none

/-! ## External collaborators (crypto.js imports)

The WebCrypto AEAD engine and digest and the @vivaxy/png codec are not part
of this repository; they are abstract parameters. `aeadEnc key iv pt`
returns the combined `ciphertext ‖ tag` output of `subtle.encrypt`;
`aeadDec key iv data` returns `none` when `subtle.decrypt` throws.
`pngEncode w h rgba` returns `none` when the PNG encoder throws;
`pngDecode bytes` returns `(width, height, colorType, pixelBytes)` or
`none` when decoding throws. `hash` is the SHA-256 digest of the UTF-8
bytes of a string. -/

structure Collab where
  aeadEnc : List ℕ → List ℕ → List ℕ → List ℕ
  aeadDec : List ℕ → List ℕ → List ℕ → Option (List ℕ)
  pngEncode : ℕ → ℕ → List ℕ → Option (List ℕ)
  pngDecode : List ℕ → Option (ℕ × ℕ × ℕ × List ℕ)
  hash : String → List ℕ

/-- @vivaxy/png `COLOR_TYPES.TRUE_COLOR`. -/
def TRUE_COLOR : ℕ := 2

/-- @vivaxy/png `COLOR_TYPES.TRUE_COLOR_WITH_ALPHA`. -/
def TRUE_COLOR_WITH_ALPHA : ℕ := 6

/-- `window.crypto.subtle.importKey('raw', keyBytes, 'AES-GCM', ...)`
succeeds exactly for 16-, 24- or 32-byte raw key material. -/
def validKeyLength (keyBytes : List ℕ) : Prop :=
  keyBytes.length = 16 ∨ keyBytes.length = 24 ∨ keyBytes.length = 32

instance (keyBytes : List ℕ) : Decidable (validKeyLength keyBytes) := by
  unfold validKeyLength
  infer_instance

/-! ## crypto.js -/

/-- crypto.js `getHash` (lines 120-129): digest, then `subarray(0, length)`. -/
def getHash (hash : String → List ℕ) (input : String) (length : ℕ) : List ℕ :=
  (hash input).take length

/-- crypto.js `splitCiphertext` (lines 106-116): returns `(tag, encrypted)`
where `tag` is the trailing `tagLength` bytes. -/
def splitCiphertext (ciphertext : List ℕ) (tagLength : ℕ) : List ℕ × List ℕ :=
  (ciphertext.drop (ciphertext.length - tagLength),
   ciphertext.take (ciphertext.length - tagLength))

/-- The `image` argument of `encrypt`, as seen by util.js
`getImageDataCanvas` (lines 74-94): an `HTMLImageElement` or a `File`/`Blob`
that loads, a `File`/`Blob` whose load fires `onerror`, or a value of any
other type. -/
inductive ImageInput where
  | element (w h : ℕ) (imageData : List ℕ)
  | blobOk (w h : ℕ) (imageData : List ℕ)
  | badBlob
  | notImage
deriving DecidableEq

/-- util.js `getImageDataCanvas`: `{ w, h, imageData }` on success, the
`{ output: null, error }` object on failure. On success the canvas returns
the image's RGBA bytes. -/
def getImageDataCanvas : ImageInput → Except SmzzlError (ℕ × ℕ × List ℕ)
  | .element w h d => .ok (w, h, d)
  | .blobOk w h d => .ok (w, h, d)
  | .badBlob => .error (.decoding "load")
  | .notImage => .error .imageType

/-- crypto.js `encrypt` steps (3)-(7) (lines 27-104), shared by both key
modes: `importKey` and `subtle.encrypt` sit in one `try` whose handler
returns `CryptoError('encrypt')`; the only failure the model can exhibit
there is invalid raw-key length. Then the combined AEAD output is split
(`tag` = trailing 16 bytes), the header block is built, header and
ciphertext are concatenated, alpha is re-added, and the result is
PNG-encoded at height `h + headerHeight` (failure:
`EncodingError('png')`). -/
def encryptCore (C : Collab) (rng : Rng) (w h : ℕ) (imageData : List ℕ)
    (usePassword : Bool) (keyBytes : List ℕ) : Outcome :=
  let imageDataRGB := toRGB imageData
  if validKeyLength keyBytes then
    let iv := randBytes rng IV_LENGTH
    let rng1 := advance rng IV_LENGTH
    let ciphertext := C.aeadEnc keyBytes iv imageDataRGB
    let st := splitCiphertext ciphertext TAG_LENGTH
    let encoded := encodeHeader rng1 w h iv st.1 usePassword keyBytes
    let outputDataRGB := encoded.headerData ++ st.2
    let outputDataRGBA := toRGBA outputDataRGB
    match C.pngEncode w (h + encoded.headerHeight) outputDataRGBA with
    | some blob => .ret ⟨some blob, none⟩
    | none => .ret ⟨none, some (.encoding "png")⟩
  else .ret ⟨none, some (.crypto "encrypt")⟩

/-- crypto.js `encrypt` (lines 14-104). Step (1) calls
`getImageDataCanvas` and destructures `{ w, h, imageData }` from its result
WITHOUT checking the error case; on a load failure the result is
`{ output: null, error }`, the three destructured names are `undefined`,
and step (2) `toRGB(undefined)` reads `.length` of `undefined`, throwing a
`TypeError` that escapes `encrypt` uncaught. On success, a non-empty string
password selects the hashed key (`usePassword = true`); any other `pw`
(empty string, number, null, undefined) selects a fresh random 32-byte key.
The digest in `getHash` is total here, so the `CryptoError('hash')` branch
is unreachable in the model. -/
def encrypt (C : Collab) (rng : Rng) (image : ImageInput) (pw : JSVal) :
    Outcome :=
  match getImageDataCanvas image with
  | .error _ => .uncaught "TypeError"
  | .ok (w, h, imageData) =>
    match pwNonEmpty pw with
    | some s => encryptCore C rng w h imageData true (getHash C.hash s KEY_LENGTH)
    | none => encryptCore C (advance rng KEY_LENGTH) w h imageData false
        (randBytes rng KEY_LENGTH)

/-- util.js `getImageDataPNG` (lines 42-67): PNG-decode the bytes, accept
only color types 2 (RGB, kept as is) and 6 (RGBA, alpha stripped), return
`null` on any decoding error or other color type. -/
def getImageDataPNG (C : Collab) (bytes : List ℕ) : Option (List ℕ) :=
  match C.pngDecode bytes with
  | none => none
  | some (_, _, colorType, data) =>
    if colorType = TRUE_COLOR_WITH_ALPHA then some (toRGB data)
    else if colorType = TRUE_COLOR then some data
    else none

/-- crypto.js `decrypt` step (4), key resolution (lines 160-170): a
password-flagged header demands a non-empty string password and uses its
hash, ignoring the stored (decoy) key bytes; otherwise the stored key bytes
are used verbatim. The digest is total, so `CryptoError('hash')` is
unreachable in the model. -/
def resolveKey (C : Collab) (header : SmzzlHeader) (pw : JSVal) :
    Except SmzzlError (List ℕ) :=
  if header.usePassword then
    match pwNonEmpty pw with
    | some s => .ok (getHash C.hash s KEY_LENGTH)
    | none => .error (.crypto "no password")
  else .ok header.keyBytes

/-- crypto.js `decrypt` try-block of step (4) (lines 184-206): compute
`headerLength = headerHeight * 3 * w`, slice the ciphertext after it,
rebuild the AEAD input as `ciphertext ‖ tag`, and call `subtle.decrypt`;
every throw inside the block becomes `CryptoError('decrypt')`. The throw
conditions are: a `NaN` in `headerHeight` or `w` (the allocation
`new Uint8ClampedArray(NaN)` gives a length-0 buffer into which
`data.set(encrypted, 0)` then overflows — the buffer here is never empty,
having passed the magic check); a negative `dataLength`
(allocation RangeError); a `set` past the end of `data` (RangeError); and a
`subtle.decrypt` failure. -/
def decryptTry (C : Collab) (imageDataRGB : List ℕ) (header : SmzzlHeader)
    (keyBytes : List ℕ) : Except SmzzlError (List ℕ) :=
  match header.headerHeight, header.w with
  | some hh, some wv =>
    let headerLength := hh * 3 * wv
    if imageDataRGB.length + TAG_LENGTH < headerLength then
      .error (.crypto "decrypt")
    else
      let dataLength := imageDataRGB.length + TAG_LENGTH - headerLength
      let encrypted := imageDataRGB.drop headerLength
      if dataLength < encrypted.length + header.tag.length then
        .error (.crypto "decrypt")
      else
        let data := encrypted ++ header.tag ++
          List.replicate (dataLength - encrypted.length - header.tag.length) 0
        match C.aeadDec keyBytes header.iv data with
        | none => .error (.crypto "decrypt")
        | some pt => .ok pt
  | _, _ => .error (.crypto "decrypt")

/-- crypto.js `decrypt` steps (2)-(6) (lines 151-231), operating on the RGB
bytes produced by step (1): verify the magic identifier, decode the header,
resolve the key, import it (raw AES-GCM key import fails unless the key is
16/24/32 bytes: `CryptoError('import key')`), run the decryption try-block,
re-add alpha, and PNG-encode at the header's recorded width and height
(failure: `EncodingError('png')`; an unparsed width or height would reach
the encoder as `NaN` and also throw there, but a parsed `headerHeight`
means the buffer holds at least 84 bytes, so those fields are parsed). -/
def decryptData (C : Collab) (imageDataRGB : List ℕ) (pw : JSVal) : Outcome :=
  if verifyIdentifier imageDataRGB then
    match decodeHeader imageDataRGB with
    | some header =>
      match resolveKey C header pw with
      | .error e => .ret ⟨none, some e⟩
      | .ok keyBytes =>
        if validKeyLength keyBytes then
          match decryptTry C imageDataRGB header keyBytes with
          | .error e => .ret ⟨none, some e⟩
          | .ok pt =>
            match header.w, header.h with
            | some wv, some hv =>
              match C.pngEncode wv hv (toRGBA pt) with
              | some blob => .ret ⟨some blob, none⟩
              | none => .ret ⟨none, some (.encoding "png")⟩
            | _, _ => .ret ⟨none, some (.encoding "png")⟩
        else .ret ⟨none, some (.crypto "import key")⟩
    | none => .ret ⟨none, some (.decoding "invalid header")⟩
  else .ret ⟨none, some (.decoding "signiture not found")⟩

/-- The `image` argument of `decrypt`: a `File`/`Blob` with its bytes, or a
value failing the `instanceof` check (including `null`/`undefined`). -/
inductive DecInput where
  | blob (bytes : List ℕ)
  | notBlob
deriving DecidableEq

/-- crypto.js `decrypt` (lines 144-231): reject non-`File`/`Blob` inputs,
load the pixel data through the strict PNG path, then run the container
pipeline `decryptData`. -/
def decrypt (C : Collab) (image : DecInput) (pw : JSVal) : Outcome :=
  match image with
  | .notBlob => .ret ⟨none, some .imageType⟩
  | .blob bytes =>
    match getImageDataPNG C bytes with
    | none => .ret ⟨none, some (.decoding "PNG decoding failed")⟩
    | some data => decryptData C data pw

/-- Flip bit `k` of the byte at position `p` (tamper model for the
authenticated-encryption claims). -/
def flipBit (a : List ℕ) (p k : ℕ) : List ℕ :=
  a.set p ((a.getD p 0) ^^^ 2 ^ k)

/-! ## Statement helpers

Named pieces of `encrypt`'s dataflow, used to state theorems about the
produced container. Each is read off the corresponding step of crypto.js
`encrypt` (see `encrypt` above). -/

/-- The patched 92-byte metadata block as laid out by `encodeHeader`:
identifier, version, flags, width, height, iv, tag, key field, patched
header height, zero footer height, zero area length. -/
def metaBlock (w h : ℕ) (iv tag keyB : List ℕ) (usePassword : Bool) (hh : ℕ) :
    List ℕ :=
  SMZZL_IDENTIFIER ++ SMZZL_VERSION ++
    (if usePassword then [0x80, 0x00] else [0x00, 0x00]) ++ encodeUint w ++
    encodeUint h ++ iv ++ tag ++ keyB ++ encodeUint hh ++
    List.replicate NUMBER_LENGTH 0 ++ encodeUint 0

/-- `Math.ceil(92 / (3 * w))`, the header row count for width `w ≥ 1`. -/
def headerHeight92 (w : ℕ) : ℕ :=
  (HEADER_MINIMUM_LENGTH + 3 * w - 1) / (3 * w)

/-- Whether `encrypt` runs in password mode for this `pw` argument. -/
def encUsePassword (pw : JSVal) : Bool := (pwNonEmpty pw).isSome

/-- The AEAD key `encrypt` uses: hashed password, or 32 fresh random
bytes. -/
def encKeyBytes (C : Collab) (rng : Rng) (pw : JSVal) : List ℕ :=
  match pwNonEmpty pw with
  | some s => getHash C.hash s KEY_LENGTH
  | none => randBytes rng KEY_LENGTH

/-- The random source after `encrypt`'s key selection step. -/
def encRngAfterKey (rng : Rng) (pw : JSVal) : Rng :=
  match pwNonEmpty pw with
  | some _ => rng
  | none => advance rng KEY_LENGTH

/-- The AEAD nonce `encrypt` generates. -/
def encIv (rng : Rng) (pw : JSVal) : List ℕ :=
  randBytes (encRngAfterKey rng pw) IV_LENGTH

/-- The RGB pixel buffer (header rows followed by ciphertext) that
`encrypt` embeds in the output PNG. -/
def encryptedRGB (C : Collab) (rng : Rng) (w h : ℕ) (imageData : List ℕ)
    (pw : JSVal) : List ℕ :=
  let keyB := encKeyBytes C rng pw
  let rng1 := encRngAfterKey rng pw
  let iv := randBytes rng1 IV_LENGTH
  let st := splitCiphertext (C.aeadEnc keyB iv (toRGB imageData)) TAG_LENGTH
  (encodeHeader (advance rng1 IV_LENGTH) w h iv st.1 (encUsePassword pw)
    keyB).headerData ++ st.2

/-! ## Test doubles for the collaborators

Concrete instances of `Collab` and `Rng` used by witness theorems to
discharge the collaborator hypotheses at concrete inputs. -/

/-- A deterministic all-zero random stream. -/
def zeroRng : Rng := ⟨fun _ => 0, 0⟩

/-- Witness AEAD encryption: plaintext with a 16-byte zero tag appended
(length-preserving modulo the tag, as AES-GCM is). -/
def toyEnc (_key _iv pt : List ℕ) : List ℕ := pt ++ List.replicate 16 0

/-- Witness AEAD decryption inverting `toyEnc`. -/
def toyDec (_key _iv ct : List ℕ) : Option (List ℕ) :=
  if 16 ≤ ct.length then some (ct.take (ct.length - 16)) else none

/-- Witness PNG encoder: width, height, pixels, concatenated. -/
def toyPngEncode (w h : ℕ) (d : List ℕ) : Option (List ℕ) :=
  some (encodeUint w ++ encodeUint h ++ d)

/-- Witness PNG decoder inverting `toyPngEncode`, always RGBA. -/
def toyPngDecode (bs : List ℕ) : Option (ℕ × ℕ × ℕ × List ℕ) :=
  match decodeUint (bs.take 4), decodeUint ((bs.drop 4).take 4) with
  | some w, some h => some (w, h, TRUE_COLOR_WITH_ALPHA, bs.drop 8)
  | _, _ => none

/-- Witness digest: 32 bytes depending on the input length, so that
distinct-length passwords hash to distinct keys. -/
def toyHash (s : String) : List ℕ := List.replicate 32 (7 + s.length)

/-- Witness collaborator bundle for the round-trip claims. -/
def toyCollab : Collab := ⟨toyEnc, toyDec, toyPngEncode, toyPngDecode, toyHash⟩

/-- The plaintext of the tamper-detection witness container. -/
def strictPt : List ℕ := [9, 8, 7]

/-- The key of the tamper-detection witness container (the hash of the
password "p"). -/
def strictKey : List ℕ := List.replicate 32 8

/-- Witness AEAD decryption that accepts exactly one (key, ciphertext)
pair, as an authenticated cipher does. -/
def strictDec (key _iv ct : List ℕ) : Option (List ℕ) :=
  if key = strictKey ∧ ct = strictPt ++ List.replicate 16 0 then some strictPt
  else none

/-- Witness collaborator bundle for the tamper-detection claim. -/
def strictCollab : Collab :=
  ⟨toyEnc, strictDec, toyPngEncode, toyPngDecode, toyHash⟩

/-! ## Basic lemmas -/

theorem randBytes_length (rng : Rng) (n : ℕ) : (randBytes rng n).length = n := by
  simp [randBytes]

theorem encodeUint_length (n : ℕ) : (encodeUint n).length = 4 := rfl

theorem decodeUint_four (b0 b1 b2 b3 : ℕ) :
    decodeUint [b0, b1, b2, b3] =
      some (b0 * 0x01000000 + b1 * 0x00010000 + b2 * 0x00000100 + b3) := rfl

theorem decodeUint_encodeUint {n : ℕ} (h : n < 2 ^ 32) :
    decodeUint (encodeUint n) = some n := by
  rw [encodeUint, decodeUint_four, Option.some.injEq]
  omega

theorem headerHeight92_le (w : ℕ) (hw : 1 ≤ w) : headerHeight92 w ≤ 31 := by
  unfold headerHeight92 HEADER_MINIMUM_LENGTH
  have h1 := (Nat.div_lt_iff_lt_mul (show 0 < 3 * w by omega)).mpr
    (show 92 + 3 * w - 1 < 32 * (3 * w) by omega)
  omega

theorem headerHeight92_pos (w : ℕ) (hw : 1 ≤ w) : 1 ≤ headerHeight92 w := by
  unfold headerHeight92 HEADER_MINIMUM_LENGTH
  rw [Nat.le_div_iff_mul_le (show 0 < 3 * w by omega)]
  omega

theorem le_headerHeight92_mul (w : ℕ) (hw : 1 ≤ w) :
    92 ≤ headerHeight92 w * (3 * w) := by
  unfold headerHeight92 HEADER_MINIMUM_LENGTH
  have h1 := Nat.div_add_mod (92 + 3 * w - 1) (3 * w)
  have h2 := Nat.mod_lt (92 + 3 * w - 1) (show 0 < 3 * w by omega)
  rw [Nat.mul_comm ((92 + 3 * w - 1) / (3 * w)) (3 * w)]
  omega

theorem headerHeight92_pred_mul (w : ℕ) (hw : 1 ≤ w) :
    (headerHeight92 w - 1) * (3 * w) < 92 := by
  have h2 := headerHeight92_pos w hw
  have h1 : headerHeight92 w * (3 * w) ≤ 92 + 3 * w - 1 :=
    Nat.div_mul_le_self _ _
  have h4 : 3 * w ≤ headerHeight92 w * (3 * w) :=
    Nat.le_mul_of_pos_left (3 * w) h2
  have h3 : (headerHeight92 w - 1) * (3 * w) + 3 * w
      = headerHeight92 w * (3 * w) := by
    rw [Nat.sub_one_mul]
    omega
  omega

theorem extract_field (pre mid post : List ℕ) {data : List ℕ} {off len : ℕ}
    (hdata : data = pre ++ (mid ++ post)) (hoff : pre.length = off)
    (hlen : mid.length = len) : (data.drop off).take len = mid := by
  subst hdata
  rw [List.drop_left' hoff, List.take_left' hlen]

theorem verifyIdentifier_iff (data : List ℕ) :
    verifyIdentifier data = true ↔ data.take 5 = SMZZL_IDENTIFIER := by
  rcases data with _ | ⟨a, _ | ⟨b, _ | ⟨c, _ | ⟨d, _ | ⟨e, rest⟩⟩⟩⟩⟩ <;>
    simp [verifyIdentifier, SMZZL_IDENTIFIER, List.range_succ]

/-! ## Pixel packing: loop characterization -/

theorem getElem?_set_of_eq {l : List ℕ} {i j : ℕ} (v : ℕ) (h : i = j) :
    (l.set i v)[j]? = l[j]?.map (fun _ => v) := by
  subst h
  exact List.getElem?_set_self' ..

theorem toRGBStep_length (a R : List ℕ) (i : ℕ) :
    (toRGBStep a R i).length = R.length := by
  simp [toRGBStep]

theorem toRGB_foldl_length (a R : List ℕ) (k : ℕ) :
    ((List.range k).foldl (toRGBStep a) R).length = R.length := by
  induction k with
  | zero => rfl
  | succ k ih =>
    rw [List.range_succ, List.foldl_append, List.foldl_cons, List.foldl_nil,
      toRGBStep_length, ih]

theorem toRGB_foldl_getElem? (a R : List ℕ) (k m : ℕ) :
    ((List.range k).foldl (toRGBStep a) R)[m]? =
      if m / 3 < k ∧ m < R.length then some ((a[m / 3 * 4 + m % 3]?).getD 0)
      else R[m]? := by
  induction k with
  | zero => simp
  | succ k ih =>
    rw [List.range_succ, List.foldl_append, List.foldl_cons, List.foldl_nil,
      toRGBStep]
    by_cases hk : m / 3 < k
    · rw [List.getElem?_set_ne (show k * 3 + 2 ≠ m by omega),
        List.getElem?_set_ne (show k * 3 + 1 ≠ m by omega),
        List.getElem?_set_ne (show k * 3 ≠ m by omega), ih]
      by_cases hR : m < R.length
      · rw [if_pos ⟨hk, hR⟩,
          if_pos (show m / 3 < k + 1 ∧ m < R.length from ⟨by omega, hR⟩)]
      · rw [if_neg (fun hc => hR hc.2), if_neg (fun hc => hR hc.2)]
    · by_cases hk2 : m / 3 = k
      · have hif : (if m / 3 < k ∧ m < R.length then
            some ((a[m / 3 * 4 + m % 3]?).getD 0) else R[m]?) = R[m]? :=
          if_neg (fun hc => hk hc.1)
        rcases (show m % 3 = 0 ∨ m % 3 = 1 ∨ m % 3 = 2 by omega) with hr | hr | hr
        · rw [List.getElem?_set_ne (show k * 3 + 2 ≠ m by omega),
            List.getElem?_set_ne (show k * 3 + 1 ≠ m by omega),
            getElem?_set_of_eq _ (show k * 3 = m by omega), ih, hif]
          by_cases hR : m < R.length
          · rw [List.getElem?_eq_getElem hR]
            rw [if_pos ⟨show m / 3 < k + 1 by omega, hR⟩, hk2, hr]
            norm_num
          · rw [List.getElem?_eq_none (Nat.le_of_not_lt hR)]
            rw [if_neg (fun hc => hR hc.2)]
            rfl
        · rw [List.getElem?_set_ne (show k * 3 + 2 ≠ m by omega),
            getElem?_set_of_eq _ (show k * 3 + 1 = m by omega),
            List.getElem?_set_ne (show k * 3 ≠ m by omega), ih, hif]
          by_cases hR : m < R.length
          · rw [List.getElem?_eq_getElem hR]
            rw [if_pos ⟨show m / 3 < k + 1 by omega, hR⟩, hk2, hr]
            norm_num
          · rw [List.getElem?_eq_none (Nat.le_of_not_lt hR)]
            rw [if_neg (fun hc => hR hc.2)]
            rfl
        · rw [getElem?_set_of_eq _ (show k * 3 + 2 = m by omega),
            List.getElem?_set_ne (show k * 3 + 1 ≠ m by omega),
            List.getElem?_set_ne (show k * 3 ≠ m by omega), ih, hif]
          by_cases hR : m < R.length
          · rw [List.getElem?_eq_getElem hR]
            rw [if_pos ⟨show m / 3 < k + 1 by omega, hR⟩, hk2, hr]
            norm_num
          · rw [List.getElem?_eq_none (Nat.le_of_not_lt hR)]
            rw [if_neg (fun hc => hR hc.2)]
            rfl
      · rw [List.getElem?_set_ne (show k * 3 + 2 ≠ m by omega),
          List.getElem?_set_ne (show k * 3 + 1 ≠ m by omega),
          List.getElem?_set_ne (show k * 3 ≠ m by omega), ih,
          if_neg (fun hc => hk hc.1), if_neg (fun hc => hk (by omega))]

theorem toRGB_length (a : List ℕ) : (toRGB a).length = 3 * a.length / 4 := by
  rw [toRGB, toRGB_foldl_length, List.length_replicate]

theorem toRGB_getElem?_lt (a : List ℕ) (m : ℕ) (hm : m < 3 * a.length / 4) :
    (toRGB a)[m]? = a[m / 3 * 4 + m % 3]? := by
  rw [toRGB, toRGB_foldl_getElem?,
    if_pos (show _ ∧ m < (List.replicate (3 * a.length / 4) 0).length from
      ⟨show m / 3 < (a.length + 3) / 4 by omega, by
        rw [List.length_replicate]; exact hm⟩),
    List.getElem?_eq_getElem (show m / 3 * 4 + m % 3 < a.length by omega)]
  rfl

theorem toRGBAStep_length (a R : List ℕ) (i : ℕ) :
    (toRGBAStep a R i).length = R.length := by
  simp [toRGBAStep]

theorem toRGBA_foldl_length (a R : List ℕ) (k : ℕ) :
    ((List.range k).foldl (toRGBAStep a) R).length = R.length := by
  induction k with
  | zero => rfl
  | succ k ih =>
    rw [List.range_succ, List.foldl_append, List.foldl_cons, List.foldl_nil,
      toRGBAStep_length, ih]

theorem toRGBA_foldl_getElem? (a R : List ℕ) (k m : ℕ) :
    ((List.range k).foldl (toRGBAStep a) R)[m]? =
      if m / 4 < k ∧ m < R.length then
        some (if m % 4 = 3 then 255 else (a[m / 4 * 3 + m % 4]?).getD 0)
      else R[m]? := by
  induction k with
  | zero => simp
  | succ k ih =>
    rw [List.range_succ, List.foldl_append, List.foldl_cons, List.foldl_nil,
      toRGBAStep]
    by_cases hk : m / 4 < k
    · rw [List.getElem?_set_ne (show k * 4 + 3 ≠ m by omega),
        List.getElem?_set_ne (show k * 4 + 2 ≠ m by omega),
        List.getElem?_set_ne (show k * 4 + 1 ≠ m by omega),
        List.getElem?_set_ne (show k * 4 ≠ m by omega), ih]
      by_cases hR : m < R.length
      · rw [if_pos ⟨hk, hR⟩,
          if_pos (show m / 4 < k + 1 ∧ m < R.length from ⟨by omega, hR⟩)]
      · rw [if_neg (fun hc => hR hc.2), if_neg (fun hc => hR hc.2)]
    · by_cases hk2 : m / 4 = k
      · have hif : (if m / 4 < k ∧ m < R.length then
            some (if m % 4 = 3 then 255 else (a[m / 4 * 3 + m % 4]?).getD 0)
            else R[m]?) = R[m]? :=
          if_neg (fun hc => hk hc.1)
        rcases (show m % 4 = 0 ∨ m % 4 = 1 ∨ m % 4 = 2 ∨ m % 4 = 3 by omega)
          with hr | hr | hr | hr
        · rw [List.getElem?_set_ne (show k * 4 + 3 ≠ m by omega),
            List.getElem?_set_ne (show k * 4 + 2 ≠ m by omega),
            List.getElem?_set_ne (show k * 4 + 1 ≠ m by omega),
            getElem?_set_of_eq _ (show k * 4 = m by omega), ih, hif]
          by_cases hR : m < R.length
          · rw [List.getElem?_eq_getElem hR]
            rw [if_pos ⟨show m / 4 < k + 1 by omega, hR⟩, hk2, hr]
            norm_num
          · rw [List.getElem?_eq_none (Nat.le_of_not_lt hR)]
            rw [if_neg (fun hc => hR hc.2)]
            rfl
        · rw [List.getElem?_set_ne (show k * 4 + 3 ≠ m by omega),
            List.getElem?_set_ne (show k * 4 + 2 ≠ m by omega),
            getElem?_set_of_eq _ (show k * 4 + 1 = m by omega),
            List.getElem?_set_ne (show k * 4 ≠ m by omega), ih, hif]
          by_cases hR : m < R.length
          · rw [List.getElem?_eq_getElem hR]
            rw [if_pos ⟨show m / 4 < k + 1 by omega, hR⟩, hk2, hr]
            norm_num
          · rw [List.getElem?_eq_none (Nat.le_of_not_lt hR)]
            rw [if_neg (fun hc => hR hc.2)]
            rfl
        · rw [List.getElem?_set_ne (show k * 4 + 3 ≠ m by omega),
            getElem?_set_of_eq _ (show k * 4 + 2 = m by omega),
            List.getElem?_set_ne (show k * 4 + 1 ≠ m by omega),
            List.getElem?_set_ne (show k * 4 ≠ m by omega), ih, hif]
          by_cases hR : m < R.length
          · rw [List.getElem?_eq_getElem hR]
            rw [if_pos ⟨show m / 4 < k + 1 by omega, hR⟩, hk2, hr]
            norm_num
          · rw [List.getElem?_eq_none (Nat.le_of_not_lt hR)]
            rw [if_neg (fun hc => hR hc.2)]
            rfl
        · rw [getElem?_set_of_eq _ (show k * 4 + 3 = m by omega),
            List.getElem?_set_ne (show k * 4 + 2 ≠ m by omega),
            List.getElem?_set_ne (show k * 4 + 1 ≠ m by omega),
            List.getElem?_set_ne (show k * 4 ≠ m by omega), ih, hif]
          by_cases hR : m < R.length
          · rw [List.getElem?_eq_getElem hR]
            rw [if_pos ⟨show m / 4 < k + 1 by omega, hR⟩, hr]
            norm_num
          · rw [List.getElem?_eq_none (Nat.le_of_not_lt hR)]
            rw [if_neg (fun hc => hR hc.2)]
            rfl
      · rw [List.getElem?_set_ne (show k * 4 + 3 ≠ m by omega),
          List.getElem?_set_ne (show k * 4 + 2 ≠ m by omega),
          List.getElem?_set_ne (show k * 4 + 1 ≠ m by omega),
          List.getElem?_set_ne (show k * 4 ≠ m by omega), ih,
          if_neg (fun hc => hk hc.1), if_neg (fun hc => hk (by omega))]

theorem toRGBA_length (a : List ℕ) : (toRGBA a).length = 4 * a.length / 3 := by
  rw [toRGBA, toRGBA_foldl_length, List.length_replicate]

theorem toRGBA_getElem?_lt (a : List ℕ) (m : ℕ) (hm : m < 4 * a.length / 3) :
    (toRGBA a)[m]? =
      if m % 4 = 3 then some 255 else a[m / 4 * 3 + m % 4]? := by
  rw [toRGBA, toRGBA_foldl_getElem?,
    if_pos (show _ ∧ m < (List.replicate (4 * a.length / 3) 0).length from
      ⟨show m / 4 < (a.length + 2) / 3 by omega, by
        rw [List.length_replicate]; exact hm⟩)]
  by_cases hr : m % 4 = 3
  · rw [if_pos hr, if_pos hr]
  · rw [if_neg hr, if_neg hr,
      List.getElem?_eq_getElem (show m / 4 * 3 + m % 4 < a.length by omega)]
    rfl

/-! ## Pixel packing: compositions -/

theorem toRGB_toRGBA (a : List ℕ) (h3 : 3 ∣ a.length) :
    toRGB (toRGBA a) = a := by
  obtain ⟨c, hc⟩ := h3
  have hA : (toRGBA a).length = 4 * c := by rw [toRGBA_length]; omega
  have hB : (toRGB (toRGBA a)).length = a.length := by
    rw [toRGB_length, hA]; omega
  apply List.ext_getElem?
  intro m
  by_cases hm : m < a.length
  · rw [toRGB_getElem?_lt _ _ (by rw [hA]; omega),
      toRGBA_getElem?_lt _ _ (by rw [hc]; omega),
      if_neg (show ¬((m / 3 * 4 + m % 3) % 4 = 3) by omega),
      show (m / 3 * 4 + m % 3) / 4 * 3 + (m / 3 * 4 + m % 3) % 4 = m by omega]
  · rw [List.getElem?_eq_none (show a.length ≤ m from Nat.le_of_not_lt hm),
      List.getElem?_eq_none (show (toRGB (toRGBA a)).length ≤ m by
        rw [hB]; exact Nat.le_of_not_lt hm)]

theorem toRGBA_toRGB_length (a : List ℕ) (h4 : 4 ∣ a.length) :
    (toRGBA (toRGB a)).length = a.length := by
  obtain ⟨c, hc⟩ := h4
  rw [toRGBA_length, toRGB_length]
  omega

theorem toRGBA_toRGB_getElem? (a : List ℕ) (h4 : 4 ∣ a.length) (m : ℕ)
    (hm : m < a.length) :
    (toRGBA (toRGB a))[m]? = if m % 4 = 3 then some 255 else a[m]? := by
  obtain ⟨c, hc⟩ := h4
  rw [toRGBA_getElem?_lt _ _ (by rw [toRGB_length]; omega)]
  by_cases hr : m % 4 = 3
  · rw [if_pos hr, if_pos hr]
  · rw [if_neg hr, if_neg hr,
      toRGB_getElem?_lt _ _ (by omega),
      show (m / 4 * 3 + m % 4) / 3 * 4 + (m / 4 * 3 + m % 4) % 3 = m by omega]

/-! ## Header codec lemmas -/

theorem getElem?_after (pre post : List ℕ) {data : List ℕ} {n : ℕ}
    (hdata : data = pre ++ post) (hn : pre.length = n) : data[n]? = post[0]? := by
  subst hdata
  rw [List.getElem?_append_right (Nat.le_of_eq hn), hn, Nat.sub_self]

theorem metaAssembly (w h hh' : ℕ) (flag iv tag keyB' pieces : List ℕ)
    (hfl : flag.length = 2) (hiv : iv.length = 16) (htag : tag.length = 16)
    (hkey : keyB'.length = 32)
    (hp : pieces = SMZZL_IDENTIFIER ++ SMZZL_VERSION ++ flag ++ encodeUint w ++
      encodeUint h ++ iv ++ tag ++ keyB' ++ List.replicate NUMBER_LENGTH 0 ++
      List.replicate NUMBER_LENGTH 0 ++ encodeUint 0) :
    (pieces.take HEADER_MINIMUM_LENGTH ++
        List.replicate (HEADER_MINIMUM_LENGTH - pieces.length) 0).take
      HEADERHEIGHT_INDEX ++ encodeUint hh' ++
      (pieces.take HEADER_MINIMUM_LENGTH ++
        List.replicate (HEADER_MINIMUM_LENGTH - pieces.length) 0).drop
      (HEADERHEIGHT_INDEX + NUMBER_LENGTH) =
    SMZZL_IDENTIFIER ++ SMZZL_VERSION ++ flag ++ encodeUint w ++ encodeUint h ++
      iv ++ tag ++ keyB' ++ encodeUint hh' ++ List.replicate NUMBER_LENGTH 0 ++
      encodeUint 0 := by
  simp only [HEADER_MINIMUM_LENGTH, HEADERHEIGHT_INDEX, NUMBER_LENGTH]
  have hlen : pieces.length = 92 := by
    subst hp
    simp [SMZZL_IDENTIFIER, SMZZL_VERSION, NUMBER_LENGTH, encodeUint,
      hfl, hiv, htag, hkey]
  have hmeta : pieces.take 92 ++ List.replicate (92 - pieces.length) 0
      = pieces := by
    rw [List.take_of_length_le (by omega), hlen]
    simp
  rw [hmeta]
  have h80 : (SMZZL_IDENTIFIER ++ SMZZL_VERSION ++ flag ++ encodeUint w ++
      encodeUint h ++ iv ++ tag ++ keyB').length = 80 := by
    simp [SMZZL_IDENTIFIER, SMZZL_VERSION, encodeUint, hfl, hiv, htag, hkey]
  have h84 : ((SMZZL_IDENTIFIER ++ SMZZL_VERSION ++ flag ++ encodeUint w ++
      encodeUint h ++ iv ++ tag ++ keyB') ++ List.replicate 4 0).length = 84 := by
    rw [List.length_append, h80]
    simp
  have hsplit1 : pieces = (SMZZL_IDENTIFIER ++ SMZZL_VERSION ++ flag ++
      encodeUint w ++ encodeUint h ++ iv ++ tag ++ keyB') ++
      (List.replicate 4 0 ++ List.replicate 4 0 ++ encodeUint 0) := by
    rw [hp]
    simp only [NUMBER_LENGTH]
    simp [List.append_assoc]
  have hsplit2 : pieces = ((SMZZL_IDENTIFIER ++ SMZZL_VERSION ++ flag ++
      encodeUint w ++ encodeUint h ++ iv ++ tag ++ keyB') ++
      List.replicate 4 0) ++ (List.replicate 4 0 ++ encodeUint 0) := by
    rw [hp]
    simp only [NUMBER_LENGTH]
    simp [List.append_assoc]
  rw [show pieces.take 80 = SMZZL_IDENTIFIER ++ SMZZL_VERSION ++ flag ++
      encodeUint w ++ encodeUint h ++ iv ++ tag ++ keyB' from by
    rw [hsplit1]
    exact List.take_left' h80]
  rw [show pieces.drop 84 = List.replicate 4 0 ++ encodeUint 0 from by
    rw [hsplit2]
    exact List.drop_left' h84]
  simp [List.append_assoc]

theorem encodeHeader_headerHeight (rng : Rng) (w h : ℕ) (iv tag keyB : List ℕ)
    (up : Bool) :
    (encodeHeader rng w h iv tag up keyB).headerHeight = headerHeight92 w := rfl

theorem encodeHeader_headerData (rng : Rng) (w h : ℕ) (iv tag keyB : List ℕ)
    (up : Bool) (hiv : iv.length = 16) (htag : tag.length = 16)
    (hkey : (if up then randBytes rng KEY_LENGTH else keyB).length = 32) :
    (encodeHeader rng w h iv tag up keyB).headerData =
      metaBlock w h iv tag (if up then randBytes rng KEY_LENGTH else keyB) up
        (headerHeight92 w) ++
      (randBytes (if up then advance rng KEY_LENGTH else rng)
        (headerHeight92 w * (3 * w))).drop HEADER_MINIMUM_LENGTH := by
  have hfl : (if up then ([0x80, 0x00] : List ℕ) else [0x00, 0x00]).length = 2 := by
    rcases up <;> rfl
  simp only [encodeHeader]
  rw [show (HEADER_MINIMUM_LENGTH + 3 * w - 1) / (3 * w) = headerHeight92 w from
    rfl]
  rw [metaAssembly w h (headerHeight92 w)
    (if up then [0x80, 0x00] else [0x00, 0x00]) iv tag
    (if up then randBytes rng KEY_LENGTH else keyB) _ hfl hiv htag hkey rfl]
  rfl

theorem metaBlock_length (w h : ℕ) (iv tag keyB : List ℕ) (up : Bool) (hh : ℕ)
    (hiv : iv.length = 16) (htag : tag.length = 16) (hkey : keyB.length = 32) :
    (metaBlock w h iv tag keyB up hh).length = 92 := by
  rcases up <;>
    simp [metaBlock, SMZZL_IDENTIFIER, SMZZL_VERSION, NUMBER_LENGTH, encodeUint,
      hiv, htag, hkey]

theorem decodeHeader_metaBlock (w h : ℕ) (iv tag keyB rest : List ℕ) (up : Bool)
    (hh : ℕ) (hiv : iv.length = 16) (htag : tag.length = 16)
    (hkey : keyB.length = 32) (hw : w < 2 ^ 32) (hh2 : h < 2 ^ 32)
    (hhh : hh < 2 ^ 32) :
    decodeHeader (metaBlock w h iv tag keyB up hh ++ rest) =
      some ⟨SMZZL_IDENTIFIER, 3, up, some w, some h, iv, tag, keyB, some hh,
        some 0, some 0⟩ := by
  have hfl : (if up then ([0x80, 0x00] : List ℕ) else [0x00, 0x00]).length = 2 := by
    rcases up <;> rfl
  have hv5 : (metaBlock w h iv tag keyB up hh ++ rest)[5]? = some 3 := by
    rw [getElem?_after (SMZZL_IDENTIFIER) (SMZZL_VERSION ++
        ((if up then ([0x80, 0x00] : List ℕ) else [0x00, 0x00]) ++ (encodeUint w ++
        (encodeUint h ++ (iv ++ (tag ++ (keyB ++ (encodeUint hh ++
        (List.replicate NUMBER_LENGTH 0 ++ (encodeUint 0 ++ rest))))))))))
      (by simp [metaBlock, List.append_assoc]) (by simp [SMZZL_IDENTIFIER])]
    simp [SMZZL_VERSION]
  have hv6 : (metaBlock w h iv tag keyB up hh ++ rest)[6]? =
      some (if up then 0x80 else 0x00) := by
    rw [getElem?_after (SMZZL_IDENTIFIER ++ SMZZL_VERSION) (
        (if up then ([0x80, 0x00] : List ℕ) else [0x00, 0x00]) ++ (encodeUint w ++
        (encodeUint h ++ (iv ++ (tag ++ (keyB ++ (encodeUint hh ++
        (List.replicate NUMBER_LENGTH 0 ++ (encodeUint 0 ++ rest)))))))))
      (by simp [metaBlock, List.append_assoc])
      (by simp [SMZZL_IDENTIFIER, SMZZL_VERSION])]
    rcases up <;> simp
  have hsig : ((metaBlock w h iv tag keyB up hh ++ rest).drop 0).take 5 =
      SMZZL_IDENTIFIER := by
    rw [List.drop_zero]
    exact extract_field ([]) (SMZZL_IDENTIFIER)
      (SMZZL_VERSION ++
        ((if up then ([0x80, 0x00] : List ℕ) else [0x00, 0x00]) ++ (encodeUint w ++
        (encodeUint h ++ (iv ++ (tag ++ (keyB ++ (encodeUint hh ++
        (List.replicate NUMBER_LENGTH 0 ++ (encodeUint 0 ++ rest))))))))))
      (by simp [metaBlock, List.append_assoc]) rfl (by simp [SMZZL_IDENTIFIER])
  have hwf : ((metaBlock w h iv tag keyB up hh ++ rest).drop 8).take 4 =
      encodeUint w :=
    extract_field (SMZZL_IDENTIFIER ++ SMZZL_VERSION ++
        (if up then ([0x80, 0x00] : List ℕ) else [0x00, 0x00]))
      (encodeUint w)
      (encodeUint h ++ (iv ++ (tag ++ (keyB ++ (encodeUint hh ++
        (List.replicate NUMBER_LENGTH 0 ++ (encodeUint 0 ++ rest)))))))
      (by simp [metaBlock, List.append_assoc])
      (by simp [SMZZL_IDENTIFIER, SMZZL_VERSION, hfl]) (encodeUint_length w)
  have hhf : ((metaBlock w h iv tag keyB up hh ++ rest).drop 12).take 4 =
      encodeUint h :=
    extract_field (SMZZL_IDENTIFIER ++ SMZZL_VERSION ++
        (if up then ([0x80, 0x00] : List ℕ) else [0x00, 0x00]) ++ encodeUint w)
      (encodeUint h)
      (iv ++ (tag ++ (keyB ++ (encodeUint hh ++
        (List.replicate NUMBER_LENGTH 0 ++ (encodeUint 0 ++ rest))))))
      (by simp [metaBlock, List.append_assoc])
      (by simp [SMZZL_IDENTIFIER, SMZZL_VERSION, hfl, encodeUint])
      (encodeUint_length h)
  have hivf : ((metaBlock w h iv tag keyB up hh ++ rest).drop 16).take 16 =
      iv :=
    extract_field (SMZZL_IDENTIFIER ++ SMZZL_VERSION ++
        (if up then ([0x80, 0x00] : List ℕ) else [0x00, 0x00]) ++ encodeUint w ++
        encodeUint h)
      (iv)
      (tag ++ (keyB ++ (encodeUint hh ++
        (List.replicate NUMBER_LENGTH 0 ++ (encodeUint 0 ++ rest)))))
      (by simp [metaBlock, List.append_assoc])
      (by simp [SMZZL_IDENTIFIER, SMZZL_VERSION, hfl, encodeUint]) hiv
  have htagf : ((metaBlock w h iv tag keyB up hh ++ rest).drop 32).take 16 =
      tag :=
    extract_field (SMZZL_IDENTIFIER ++ SMZZL_VERSION ++
        (if up then ([0x80, 0x00] : List ℕ) else [0x00, 0x00]) ++ encodeUint w ++
        encodeUint h ++ iv)
      (tag)
      (keyB ++ (encodeUint hh ++
        (List.replicate NUMBER_LENGTH 0 ++ (encodeUint 0 ++ rest))))
      (by simp [metaBlock, List.append_assoc])
      (by simp [SMZZL_IDENTIFIER, SMZZL_VERSION, hfl, encodeUint, hiv]) htag
  have hkeyf : ((metaBlock w h iv tag keyB up hh ++ rest).drop 48).take 32 =
      keyB :=
    extract_field (SMZZL_IDENTIFIER ++ SMZZL_VERSION ++
        (if up then ([0x80, 0x00] : List ℕ) else [0x00, 0x00]) ++ encodeUint w ++
        encodeUint h ++ iv ++ tag)
      (keyB)
      (encodeUint hh ++
        (List.replicate NUMBER_LENGTH 0 ++ (encodeUint 0 ++ rest)))
      (by simp [metaBlock, List.append_assoc])
      (by simp [SMZZL_IDENTIFIER, SMZZL_VERSION, hfl, encodeUint, hiv, htag])
      hkey
  have hhhf : ((metaBlock w h iv tag keyB up hh ++ rest).drop 80).take 4 =
      encodeUint hh :=
    extract_field (SMZZL_IDENTIFIER ++ SMZZL_VERSION ++
        (if up then ([0x80, 0x00] : List ℕ) else [0x00, 0x00]) ++ encodeUint w ++
        encodeUint h ++ iv ++ tag ++ keyB)
      (encodeUint hh)
      (List.replicate NUMBER_LENGTH 0 ++ (encodeUint 0 ++ rest))
      (by simp [metaBlock, List.append_assoc])
      (by simp [SMZZL_IDENTIFIER, SMZZL_VERSION, hfl, encodeUint, hiv, htag,
        hkey])
      (encodeUint_length hh)
  have hfoot : ((metaBlock w h iv tag keyB up hh ++ rest).drop 84).take 4 =
      List.replicate NUMBER_LENGTH 0 :=
    extract_field (SMZZL_IDENTIFIER ++ SMZZL_VERSION ++
        (if up then ([0x80, 0x00] : List ℕ) else [0x00, 0x00]) ++ encodeUint w ++
        encodeUint h ++ iv ++ tag ++ keyB ++ encodeUint hh)
      (List.replicate NUMBER_LENGTH 0)
      (encodeUint 0 ++ rest)
      (by simp [metaBlock, List.append_assoc])
      (by simp [SMZZL_IDENTIFIER, SMZZL_VERSION, hfl, encodeUint, hiv, htag,
        hkey])
      (by simp [NUMBER_LENGTH])
  have harea : ((metaBlock w h iv tag keyB up hh ++ rest).drop 88).take 4 =
      encodeUint 0 :=
    extract_field (SMZZL_IDENTIFIER ++ SMZZL_VERSION ++
        (if up then ([0x80, 0x00] : List ℕ) else [0x00, 0x00]) ++ encodeUint w ++
        encodeUint h ++ iv ++ tag ++ keyB ++ encodeUint hh ++
        List.replicate NUMBER_LENGTH 0)
      (encodeUint 0)
      (rest)
      (by simp [metaBlock, List.append_assoc])
      (by simp [SMZZL_IDENTIFIER, SMZZL_VERSION, NUMBER_LENGTH, hfl, encodeUint,
        hiv, htag, hkey])
      (encodeUint_length 0)
  have hz : decodeUint (List.replicate NUMBER_LENGTH 0) = some 0 := by decide
  simp only [decodeHeader, hv5, if_true]
  rw [hsig, hwf, hhf, hivf, htagf, hkeyf, hhhf, hfoot, harea, hv6,
    decodeUint_encodeUint hw, decodeUint_encodeUint hh2,
    decodeUint_encodeUint hhh, decodeUint_encodeUint (by norm_num), hz]
  rcases up <;> simp <;> decide

/-! ## Decryption pipeline lemmas -/

theorem metaBlock_take5 (w h : ℕ) (iv tag keyB rest : List ℕ) (up : Bool)
    (hh : ℕ) :
    (metaBlock w h iv tag keyB up hh ++ rest).take 5 = SMZZL_IDENTIFIER := by
  have h5 : ((metaBlock w h iv tag keyB up hh ++ rest).drop 0).take 5 =
      SMZZL_IDENTIFIER :=
    extract_field ([]) (SMZZL_IDENTIFIER)
      (SMZZL_VERSION ++
        ((if up then ([0x80, 0x00] : List ℕ) else [0x00, 0x00]) ++ (encodeUint w ++
        (encodeUint h ++ (iv ++ (tag ++ (keyB ++ (encodeUint hh ++
        (List.replicate NUMBER_LENGTH 0 ++ (encodeUint 0 ++ rest))))))))))
      (by simp [metaBlock, List.append_assoc]) rfl (by simp [SMZZL_IDENTIFIER])
  rwa [List.drop_zero] at h5

theorem decryptData_noMagic (C : Collab) (d : List ℕ) (pw : JSVal)
    (h : ¬ d.take 5 = SMZZL_IDENTIFIER) :
    decryptData C d pw = .ret ⟨none, some (.decoding "signiture not found")⟩ := by
  have hv : verifyIdentifier d = false := by
    have h2 : ¬ (verifyIdentifier d = true) :=
      fun hv => h ((verifyIdentifier_iff d).mp hv)
    simpa using h2
  simp [decryptData, hv]

theorem decodeHeader_eq_none (d : List ℕ) (hv : d[5]? ≠ some 3) :
    decodeHeader d = none := by
  rw [decodeHeader]
  cases hv5 : d[5]? with
  | none => rfl
  | some v =>
    have hv3 : v ≠ 3 := fun h3 => hv (by rw [hv5, h3])
    simp [hv3]

theorem decryptData_badVersion (C : Collab) (d : List ℕ) (pw : JSVal)
    (hm : d.take 5 = SMZZL_IDENTIFIER) (hv : d[5]? ≠ some 3) :
    decryptData C d pw = .ret ⟨none, some (.decoding "invalid header")⟩ := by
  have hver : verifyIdentifier d = true := (verifyIdentifier_iff d).mpr hm
  simp [decryptData, hver, decodeHeader_eq_none d hv]

theorem decryptTry_eq (C : Collab) (w h hh : ℕ)
    (iv tag keyB camo encTail kb : List ℕ) (up : Bool)
    (hiv : iv.length = 16) (htag : tag.length = 16) (hkey : keyB.length = 32)
    (hcamo : 92 + camo.length = hh * 3 * w) :
    decryptTry C (metaBlock w h iv tag keyB up hh ++ (camo ++ encTail))
      ⟨SMZZL_IDENTIFIER, 3, up, some w, some h, iv, tag, keyB, some hh, some 0,
        some 0⟩ kb =
      match C.aeadDec kb iv (encTail ++ tag) with
      | none => .error (.crypto "decrypt")
      | some pt => .ok pt := by
  have hml := metaBlock_length w h iv tag keyB up hh hiv htag hkey
  have hlenD : (metaBlock w h iv tag keyB up hh ++ (camo ++ encTail)).length =
      hh * 3 * w + encTail.length := by
    simp only [List.length_append, hml]
    omega
  have hdrop : (metaBlock w h iv tag keyB up hh ++ (camo ++ encTail)).drop
      (hh * 3 * w) = encTail := by
    rw [show metaBlock w h iv tag keyB up hh ++ (camo ++ encTail) =
        (metaBlock w h iv tag keyB up hh ++ camo) ++ encTail from by
      simp [List.append_assoc]]
    exact List.drop_left' (by rw [List.length_append, hml]; omega)
  simp only [decryptTry, TAG_LENGTH, hlenD, hdrop, htag]
  rw [if_neg (show ¬ (hh * 3 * w + encTail.length + 16 < hh * 3 * w) by omega)]
  rw [if_neg (show ¬ (hh * 3 * w + encTail.length + 16 - hh * 3 * w <
    encTail.length + 16) by omega)]
  rw [show hh * 3 * w + encTail.length + 16 - hh * 3 * w - encTail.length - 16
    = 0 by omega]
  simp only [List.replicate_zero, List.append_nil]

theorem decryptData_eq (C : Collab) (w h hh : ℕ)
    (iv tag keyB camo encTail : List ℕ) (up : Bool) (pw : JSVal)
    (hiv : iv.length = 16) (htag : tag.length = 16) (hkey : keyB.length = 32)
    (hw : w < 2 ^ 32) (hh2 : h < 2 ^ 32) (hhh : hh < 2 ^ 32)
    (hcamo : 92 + camo.length = hh * 3 * w) :
    decryptData C (metaBlock w h iv tag keyB up hh ++ (camo ++ encTail)) pw =
      match resolveKey C ⟨SMZZL_IDENTIFIER, 3, up, some w, some h, iv, tag,
          keyB, some hh, some 0, some 0⟩ pw with
      | .error e => .ret ⟨none, some e⟩
      | .ok kb =>
        if validKeyLength kb then
          match C.aeadDec kb iv (encTail ++ tag) with
          | none => .ret ⟨none, some (.crypto "decrypt")⟩
          | some pt =>
            match C.pngEncode w h (toRGBA pt) with
            | some blob => .ret ⟨some blob, none⟩
            | none => .ret ⟨none, some (.encoding "png")⟩
        else .ret ⟨none, some (.crypto "import key")⟩ := by
  have hver : verifyIdentifier (metaBlock w h iv tag keyB up hh ++
      (camo ++ encTail)) = true :=
    (verifyIdentifier_iff _).mpr (metaBlock_take5 w h iv tag keyB _ up hh)
  have hdr := decodeHeader_metaBlock w h iv tag keyB (camo ++ encTail) up hh
    hiv htag hkey hw hh2 hhh
  simp only [decryptData, hver, hdr, if_true]
  cases hrk : resolveKey C ⟨SMZZL_IDENTIFIER, 3, up, some w, some h, iv, tag,
      keyB, some hh, some 0, some 0⟩ pw with
  | error e => rfl
  | ok kb =>
    dsimp only
    by_cases hvk : validKeyLength kb
    · rw [if_pos hvk, if_pos hvk,
        decryptTry_eq C w h hh iv tag keyB camo encTail kb up hiv htag hkey
          hcamo]
      cases C.aeadDec kb iv (encTail ++ tag) with
      | none => rfl
      | some pt =>
        cases C.pngEncode w h (toRGBA pt) with
        | none => rfl
        | some blob => rfl
    · rw [if_neg hvk, if_neg hvk]

/-! ## Encryption pipeline lemmas -/

theorem encrypt_element_eq (C : Collab) (rng : Rng) (w h : ℕ)
    (imageData : List ℕ) (pw : JSVal)
    (hkey : (encKeyBytes C rng pw).length = 32) :
    encrypt C rng (.element w h imageData) pw =
      match C.pngEncode w (h + headerHeight92 w)
          (toRGBA (encryptedRGB C rng w h imageData pw)) with
      | some blob => .ret ⟨some blob, none⟩
      | none => .ret ⟨none, some (.encoding "png")⟩ := by
  simp only [encrypt, getImageDataCanvas]
  cases hpw : pwNonEmpty pw with
  | some s =>
    dsimp only
    simp only [encryptCore, encryptedRGB, encKeyBytes, encRngAfterKey,
      encUsePassword, hpw, Option.isSome_some, encodeHeader_headerHeight]
    have hv : validKeyLength (getHash C.hash s KEY_LENGTH) :=
      Or.inr (Or.inr (by simp only [encKeyBytes, hpw] at hkey; exact hkey))
    rw [if_pos hv]
  | none =>
    dsimp only
    simp only [encryptCore, encryptedRGB, encKeyBytes, encRngAfterKey,
      encUsePassword, hpw, Option.isSome_none, encodeHeader_headerHeight]
    have hv : validKeyLength (randBytes rng KEY_LENGTH) :=
      Or.inr (Or.inr (by simp [randBytes_length, KEY_LENGTH]))
    rw [if_pos hv]

theorem metaBlock_getElem6 (w h : ℕ) (iv tag keyB rest : List ℕ) (up : Bool)
    (hh : ℕ) :
    (metaBlock w h iv tag keyB up hh ++ rest)[6]? =
      some (if up then 0x80 else 0x00) := by
  rw [getElem?_after (SMZZL_IDENTIFIER ++ SMZZL_VERSION) (
      (if up then ([0x80, 0x00] : List ℕ) else [0x00, 0x00]) ++ (encodeUint w ++
      (encodeUint h ++ (iv ++ (tag ++ (keyB ++ (encodeUint hh ++
      (List.replicate NUMBER_LENGTH 0 ++ (encodeUint 0 ++ rest)))))))))
    (by simp [metaBlock, List.append_assoc])
    (by simp [SMZZL_IDENTIFIER, SMZZL_VERSION])]
  rcases up <;> simp

theorem metaBlock_keyField (w h : ℕ) (iv tag keyB rest : List ℕ) (up : Bool)
    (hh : ℕ) (hiv : iv.length = 16) (htag : tag.length = 16)
    (hkey : keyB.length = 32) :
    ((metaBlock w h iv tag keyB up hh ++ rest).drop 48).take 32 = keyB := by
  have hfl : (if up then ([0x80, 0x00] : List ℕ) else [0x00, 0x00]).length = 2 := by
    rcases up <;> rfl
  exact extract_field (SMZZL_IDENTIFIER ++ SMZZL_VERSION ++
      (if up then ([0x80, 0x00] : List ℕ) else [0x00, 0x00]) ++ encodeUint w ++
      encodeUint h ++ iv ++ tag)
    (keyB)
    (encodeUint hh ++
      (List.replicate NUMBER_LENGTH 0 ++ (encodeUint 0 ++ rest)))
    (by simp [metaBlock, List.append_assoc])
    (by simp [SMZZL_IDENTIFIER, SMZZL_VERSION, hfl, encodeUint, hiv, htag])
    hkey

/-- Full round-trip analysis of the pipeline: `encrypt` yields a PNG blob,
`decrypt` of that blob with the same password succeeds and returns the PNG
encoding of `toRGBA (toRGB imageData)`, and the embedded container's flag
byte and key field are as laid out by `encodeHeader`. Shared engine behind
the round-trip and random-key-mode claims. -/
theorem roundtrip_main (C : Collab) (rng : Rng) (w h : ℕ) (imageData : List ℕ)
    (pw : String)
    (hw : 1 ≤ w) (hw32 : w < 2 ^ 32) (hh31 : h + 31 < 2 ^ 32)
    (himg : imageData.length = 4 * w * h)
    (hhash : ∀ s, (C.hash s).length = 32)
    (hlen : ∀ k iv pt, (C.aeadEnc k iv pt).length = pt.length + 16)
    (hrt : ∀ k iv pt, C.aeadDec k iv (C.aeadEnc k iv pt) = some pt)
    (hpng : ∀ w' h' d, w' < 2 ^ 32 → h' < 2 ^ 32 → ∃ bs,
      C.pngEncode w' h' d = some bs ∧
      C.pngDecode bs = some (w', h', TRUE_COLOR_WITH_ALPHA, d)) :
    ∃ blob out,
      encrypt C rng (.element w h imageData) (.str pw) = .ret ⟨some blob, none⟩ ∧
      C.pngEncode w h (toRGBA (toRGB imageData)) = some out ∧
      decrypt C (.blob blob) (.str pw) = .ret ⟨some out, none⟩ ∧
      C.pngDecode blob = some (w, h + headerHeight92 w, TRUE_COLOR_WITH_ALPHA,
        toRGBA (encryptedRGB C rng w h imageData (.str pw))) ∧
      toRGB (toRGBA (encryptedRGB C rng w h imageData (.str pw))) =
        encryptedRGB C rng w h imageData (.str pw) ∧
      (encryptedRGB C rng w h imageData (.str pw))[6]? =
        some (if encUsePassword (.str pw) then 0x80 else 0x00) ∧
      ((encryptedRGB C rng w h imageData (.str pw)).drop 48).take 32 =
        (if encUsePassword (.str pw) then
          randBytes (advance (encRngAfterKey rng (.str pw)) IV_LENGTH)
            KEY_LENGTH
        else encKeyBytes C rng (.str pw)) := by
  set keyB := encKeyBytes C rng (.str pw) with hkeyB
  set rng1 := encRngAfterKey rng (.str pw) with hrng1
  set iv := randBytes rng1 IV_LENGTH with hivdef
  set rgb := toRGB imageData with hrgb
  set ct := C.aeadEnc keyB iv rgb with hct
  set tag := ct.drop (ct.length - TAG_LENGTH) with htagdef
  set enc := ct.take (ct.length - TAG_LENGTH) with hencdef
  set up := encUsePassword (JSVal.str pw) with hup
  set rng2 := advance rng1 IV_LENGTH with hrng2
  set keyB' := if up then randBytes rng2 KEY_LENGTH else keyB with hkeyB'
  set camo := (randBytes (if up then advance rng2 KEY_LENGTH else rng2)
    (headerHeight92 w * (3 * w))).drop HEADER_MINIMUM_LENGTH with hcamodef
  have hkey32 : keyB.length = 32 := by
    rw [hkeyB, encKeyBytes]
    cases hpw : pwNonEmpty (JSVal.str pw) with
    | some s =>
      simp [getHash, KEY_LENGTH, hhash s]
    | none =>
      simp [randBytes_length, KEY_LENGTH]
  have hctlen : ct.length = rgb.length + 16 := hlen keyB iv rgb
  have htag16 : tag.length = 16 := by
    rw [htagdef, List.length_drop, TAG_LENGTH]
    omega
  have henclen : enc.length = rgb.length := by
    rw [hencdef, List.length_take, TAG_LENGTH]
    omega
  have hiv16 : iv.length = 16 := by
    rw [hivdef, randBytes_length]
    rfl
  have hkey'32 : keyB'.length = 32 := by
    rw [hkeyB']
    cases up
    · simpa using hkey32
    · simp [randBytes_length, KEY_LENGTH]
  have hrgblen : rgb.length = 3 * (w * h) := by
    rw [hrgb, toRGB_length, himg,
      show 3 * (4 * w * h) = 4 * (3 * (w * h)) from by ring,
      Nat.mul_div_cancel_left _ (show 0 < 4 by norm_num)]
  have hhh31 : headerHeight92 w ≤ 31 := headerHeight92_le w hw
  have hL : 92 ≤ headerHeight92 w * (3 * w) := le_headerHeight92_mul w hw
  have hcamolen : 92 + camo.length = headerHeight92 w * 3 * w := by
    rw [hcamodef, List.length_drop, randBytes_length, HEADER_MINIMUM_LENGTH,
      Nat.mul_assoc]
    have := le_headerHeight92_mul w hw
    omega
  have hcontainer : encryptedRGB C rng w h imageData (.str pw) =
      metaBlock w h iv tag keyB' up (headerHeight92 w) ++ (camo ++ enc) := by
    rw [encryptedRGB]
    simp only [splitCiphertext, ← hkeyB, ← hrng1, ← hivdef, ← hrgb, ← hct,
      ← htagdef, ← hencdef, ← hup, ← hrng2]
    rw [encodeHeader_headerData rng2 w h iv tag keyB up hiv16 htag16
      (by rw [← hkeyB']; exact hkey'32)]
    rw [← hkeyB', ← hcamodef, List.append_assoc]
  have hmblen : (metaBlock w h iv tag keyB' up (headerHeight92 w)).length = 92 :=
    metaBlock_length w h iv tag keyB' up (headerHeight92 w) hiv16 htag16 hkey'32
  have hcontlen3 : 3 ∣ (metaBlock w h iv tag keyB' up (headerHeight92 w) ++
      (camo ++ enc)).length := by
    have hcl : (metaBlock w h iv tag keyB' up (headerHeight92 w) ++
        (camo ++ enc)).length = headerHeight92 w * 3 * w + 3 * (w * h) := by
      simp only [List.length_append, hmblen, henclen, hrgblen]
      omega
    rw [hcl]
    exact ⟨headerHeight92 w * w + w * h, by ring⟩
  obtain ⟨blob, hblobE, hblobD⟩ := hpng w (h + headerHeight92 w)
    (toRGBA (metaBlock w h iv tag keyB' up (headerHeight92 w) ++ (camo ++ enc)))
    hw32 (by omega)
  obtain ⟨out, houtE, houtD⟩ := hpng w h (toRGBA rgb) hw32 (by omega)
  refine ⟨blob, out, ?_, houtE, ?_, ?_, ?_, ?_, ?_⟩
  · rw [encrypt_element_eq C rng w h imageData (.str pw) hkey32, hcontainer,
      hblobE]
  · rw [decrypt]
    simp only [getImageDataPNG, hblobD, TRUE_COLOR_WITH_ALPHA, if_true,
      eq_self_iff_true]
    rw [toRGB_toRGBA _ hcontlen3]
    rw [decryptData_eq C w h (headerHeight92 w) iv tag keyB' camo enc up
      (JSVal.str pw) hiv16 htag16 hkey'32 hw32 (by omega) (by omega) hcamolen]
    have hx : enc ++ tag = ct := by
      rw [hencdef, htagdef]
      exact List.take_append_drop _ _
    have hrk : resolveKey C ⟨SMZZL_IDENTIFIER, 3, up, some w, some h, iv, tag,
        keyB', some (headerHeight92 w), some 0, some 0⟩ (JSVal.str pw) =
        .ok keyB := by
      rw [resolveKey]
      by_cases hpw : pw = ""
      · have hup0 : up = false := by
          simp [hup, encUsePassword, pwNonEmpty, hpw]
        rw [hup0]
        simp only [Bool.false_eq_true, if_false]
        rw [hkeyB', hup0]
        simp
      · have hup1 : up = true := by
          simp [hup, encUsePassword, pwNonEmpty, hpw]
        rw [hup1]
        simp only [if_true]
        rw [show pwNonEmpty (JSVal.str pw) = some pw from by
          simp [pwNonEmpty, hpw]]
        rw [hkeyB, encKeyBytes, show pwNonEmpty (JSVal.str pw) = some pw from by
          simp [pwNonEmpty, hpw]]
    rw [hrk]
    dsimp only
    rw [if_pos (show validKeyLength keyB from Or.inr (Or.inr hkey32))]
    rw [hx, hct, hrt keyB iv rgb]
    dsimp only
    rw [houtE]
  · rw [hcontainer]
    exact hblobD
  · rw [hcontainer]
    exact toRGB_toRGBA _ hcontlen3
  · rw [hcontainer]
    exact metaBlock_getElem6 w h iv tag keyB' (camo ++ enc) up (headerHeight92 w)
  · rw [hcontainer]
    rw [metaBlock_keyField w h iv tag keyB' (camo ++ enc) up (headerHeight92 w)
      hiv16 htag16 hkey'32]

/-- C1: for every RGB image of width ≥ 1 and height ≥ 1 and every password
string (non-empty for password mode, empty for random-key mode),
`decrypt(encrypt(image, pw), pw)` succeeds and yields the PNG encoding of
pixel data that is RGB-identical to the original with every alpha byte
forced to 255 (`toRGBA (toRGB imageData)`), under the collaborator
assumptions that PNG decode inverts encode and that the AEAD decrypt
inverts encrypt with a 16-byte tag appended to a length-preserving
ciphertext. -/
theorem c1_round_trip (C : Collab) (rng : Rng) (w h : ℕ) (imageData : List ℕ)
    (pw : String)
    (hw : 1 ≤ w) (hw32 : w < 2 ^ 32) (hh31 : h + 31 < 2 ^ 32)
    (himg : imageData.length = 4 * w * h)
    (hhash : ∀ s, (C.hash s).length = 32)
    (hlen : ∀ k iv pt, (C.aeadEnc k iv pt).length = pt.length + 16)
    (hrt : ∀ k iv pt, C.aeadDec k iv (C.aeadEnc k iv pt) = some pt)
    (hpng : ∀ w' h' d, w' < 2 ^ 32 → h' < 2 ^ 32 → ∃ bs,
      C.pngEncode w' h' d = some bs ∧
      C.pngDecode bs = some (w', h', TRUE_COLOR_WITH_ALPHA, d)) :
    ∃ blob out,
      encrypt C rng (.element w h imageData) (.str pw) = .ret ⟨some blob, none⟩ ∧
      C.pngEncode w h (toRGBA (toRGB imageData)) = some out ∧
      decrypt C (.blob blob) (.str pw) = .ret ⟨some out, none⟩ := by
  obtain ⟨blob, out, h1, h2, h3, -, -, -, -⟩ :=
    roundtrip_main C rng w h imageData pw hw hw32 hh31 himg hhash hlen hrt hpng
  exact ⟨blob, out, h1, h2, h3⟩

/-! ## Witness-instance lemmas -/

theorem toyEnc_length (k iv pt : List ℕ) :
    (toyEnc k iv pt).length = pt.length + 16 := by
  simp [toyEnc]

theorem toyDec_toyEnc (k iv pt : List ℕ) :
    toyDec k iv (toyEnc k iv pt) = some pt := by
  rw [toyEnc, toyDec, if_pos (by simp)]
  simp

theorem toyPng_roundtrip (w h : ℕ) (d : List ℕ) (hw : w < 2 ^ 32)
    (hh : h < 2 ^ 32) :
    toyPngDecode (encodeUint w ++ encodeUint h ++ d) =
      some (w, h, TRUE_COLOR_WITH_ALPHA, d) := by
  have h1 : (encodeUint w ++ encodeUint h ++ d).take 4 = encodeUint w := by
    rw [show encodeUint w ++ encodeUint h ++ d =
      encodeUint w ++ (encodeUint h ++ d) from by simp [List.append_assoc]]
    exact List.take_left' (encodeUint_length w)
  have h2 : ((encodeUint w ++ encodeUint h ++ d).drop 4).take 4 =
      encodeUint h :=
    extract_field (encodeUint w) (encodeUint h) (d)
      (by simp [List.append_assoc]) (encodeUint_length w) (encodeUint_length h)
  have h3 : (encodeUint w ++ encodeUint h ++ d).drop 8 = d :=
    List.drop_left' (by simp [encodeUint])
  rw [toyPngDecode, h1, h2, h3, decodeUint_encodeUint hw,
    decodeUint_encodeUint hh]

/-- Witness for the round-trip claim: a concrete 1×1 image, password "p",
the all-zero random stream and the toy collaborators. -/
theorem c1_round_trip_witness :
    (1 : ℕ) ≤ 1 ∧ ∃ blob out,
      encrypt toyCollab zeroRng (.element 1 1 [1, 2, 3, 255]) (.str "p") =
        .ret ⟨some blob, none⟩ ∧
      toyCollab.pngEncode 1 1 (toRGBA (toRGB [1, 2, 3, 255])) = some out ∧
      decrypt toyCollab (.blob blob) (.str "p") = .ret ⟨some out, none⟩ :=
  ⟨le_refl 1,
   c1_round_trip toyCollab zeroRng 1 1 [1, 2, 3, 255] "p" (by decide)
     (by decide) (by decide) (by decide)
     (fun s => by simp [toyCollab, toyHash])
     (fun k iv pt => toyEnc_length k iv pt)
     (fun k iv pt => toyDec_toyEnc k iv pt)
     (fun w' h' d hw' hh' => ⟨encodeUint w' ++ encodeUint h' ++ d, rfl,
       toyPng_roundtrip w' h' d hw' hh'⟩)⟩

/-- C3: with `usePassword` set, the header block written by `encodeHeader`
is independent of the `keyBytes` argument — two calls with the same width,
height, iv, tag and random source but different keys produce identical
output, so the real derived key is never persisted; with `usePassword`
clear, the `keyBytes` argument is written verbatim at bytes 48-80. -/
theorem c3_decoy_key_bytes (rng : Rng) (w h : ℕ) (iv tag k1 k2 : List ℕ)
    (hne : k1 ≠ k2) :
    encodeHeader rng w h iv tag true k1 = encodeHeader rng w h iv tag true k2 ∧
    (k2.length = 32 → iv.length = 16 → tag.length = 16 →
      ((encodeHeader rng w h iv tag false k2).headerData.drop 48).take 32 =
        k2) := by
  constructor
  · rfl
  · intro hk hiv htag
    rw [encodeHeader_headerData rng w h iv tag k2 false hiv htag
      (by simpa using hk)]
    rw [show (if false then randBytes rng KEY_LENGTH else k2) = k2 from rfl]
    exact metaBlock_keyField w h iv tag k2 _ false (headerHeight92 w) hiv htag
      hk

/-- Witness for the decoy-key claim at concrete header fields. -/
theorem c3_decoy_key_bytes_witness :
    (List.replicate 32 (0 : ℕ) ≠ List.replicate 32 9) ∧
    encodeHeader zeroRng 1 1 (List.replicate 16 1) (List.replicate 16 2) true
        (List.replicate 32 0) =
      encodeHeader zeroRng 1 1 (List.replicate 16 1) (List.replicate 16 2) true
        (List.replicate 32 9) ∧
    ((encodeHeader zeroRng 1 1 (List.replicate 16 1) (List.replicate 16 2)
        false (List.replicate 32 9)).headerData.drop 48).take 32 =
      List.replicate 32 9 :=
  ⟨by decide,
   (c3_decoy_key_bytes zeroRng 1 1 (List.replicate 16 1) (List.replicate 16 2)
     (List.replicate 32 0) (List.replicate 32 9) (by decide)).1,
   (c3_decoy_key_bytes zeroRng 1 1 (List.replicate 16 1) (List.replicate 16 2)
     (List.replicate 32 0) (List.replicate 32 9) (by decide)).2 (by decide)
     (by decide) (by decide)⟩

/-- C4: for every width `w ≥ 1`, `encodeHeader` computes
`headerHeight = ceil(92 / (3w))` (characterized as the least `n` with
`92 ≤ n·3w`), patches it big-endian at byte offset 80 of the block, and
returns `headerHeight · 3w` bytes of header data; at widths 1, 10, 100 and
4096 the value is 31, 4, 1 and 1. -/
theorem c4_header_height_formula (rng : Rng) (w h : ℕ) (iv tag keyB : List ℕ)
    (up : Bool) (hw : 1 ≤ w) (hiv : iv.length = 16) (htag : tag.length = 16)
    (hkey : keyB.length = 32) :
    (encodeHeader rng w h iv tag up keyB).headerHeight = headerHeight92 w ∧
    92 ≤ headerHeight92 w * (3 * w) ∧
    (headerHeight92 w - 1) * (3 * w) < 92 ∧
    (encodeHeader rng w h iv tag up keyB).headerData.length =
      headerHeight92 w * (3 * w) ∧
    ((encodeHeader rng w h iv tag up keyB).headerData.drop 80).take 4 =
      encodeUint (headerHeight92 w) ∧
    headerHeight92 1 = 31 ∧ headerHeight92 10 = 4 ∧
    headerHeight92 100 = 1 ∧ headerHeight92 4096 = 1 := by
  have hkey' : (if up then randBytes rng KEY_LENGTH else keyB).length = 32 := by
    rcases up
    · simpa using hkey
    · simp [randBytes_length, KEY_LENGTH]
  have hmb := metaBlock_length w h iv tag
    (if up then randBytes rng KEY_LENGTH else keyB) up (headerHeight92 w)
    hiv htag hkey'
  refine ⟨encodeHeader_headerHeight rng w h iv tag keyB up,
    le_headerHeight92_mul w hw, headerHeight92_pred_mul w hw, ?_, ?_,
    by decide, by decide, by decide, by decide⟩
  · rw [encodeHeader_headerData rng w h iv tag keyB up hiv htag hkey',
      List.length_append, hmb, List.length_drop, randBytes_length,
      HEADER_MINIMUM_LENGTH]
    have := le_headerHeight92_mul w hw
    omega
  · rw [encodeHeader_headerData rng w h iv tag keyB up hiv htag hkey']
    have hfl : (if up then ([0x80, 0x00] : List ℕ) else [0x00, 0x00]).length
        = 2 := by
      rcases up <;> rfl
    exact extract_field (SMZZL_IDENTIFIER ++ SMZZL_VERSION ++
        (if up then ([0x80, 0x00] : List ℕ) else [0x00, 0x00]) ++ encodeUint w ++
        encodeUint h ++ iv ++ tag ++
        (if up then randBytes rng KEY_LENGTH else keyB))
      (encodeUint (headerHeight92 w))
      (List.replicate NUMBER_LENGTH 0 ++ (encodeUint 0 ++
        (randBytes (if up then advance rng KEY_LENGTH else rng)
          (headerHeight92 w * (3 * w))).drop HEADER_MINIMUM_LENGTH))
      (by simp [metaBlock, List.append_assoc])
      (by simp [SMZZL_IDENTIFIER, SMZZL_VERSION, hfl, encodeUint, hiv, htag,
        hkey'])
      (encodeUint_length (headerHeight92 w))

/-- Witness for the header-height claim at width 10. -/
theorem c4_header_height_formula_witness :
    (1 : ℕ) ≤ 10 ∧
    (encodeHeader zeroRng 10 7 (List.replicate 16 1) (List.replicate 16 2)
        false (List.replicate 32 3)).headerHeight = headerHeight92 10 ∧
    92 ≤ headerHeight92 10 * (3 * 10) ∧
    (headerHeight92 10 - 1) * (3 * 10) < 92 ∧
    (encodeHeader zeroRng 10 7 (List.replicate 16 1) (List.replicate 16 2)
        false (List.replicate 32 3)).headerData.length =
      headerHeight92 10 * (3 * 10) ∧
    ((encodeHeader zeroRng 10 7 (List.replicate 16 1) (List.replicate 16 2)
        false (List.replicate 32 3)).headerData.drop 80).take 4 =
      encodeUint (headerHeight92 10) ∧
    headerHeight92 1 = 31 ∧ headerHeight92 10 = 4 ∧
    headerHeight92 100 = 1 ∧ headerHeight92 4096 = 1 :=
  ⟨by decide,
   c4_header_height_formula zeroRng 10 7 (List.replicate 16 1)
     (List.replicate 16 2) (List.replicate 32 3) false (by decide) (by decide)
     (by decide) (by decide)⟩

/-- C5: the decode path rejects a container whose first 5 bytes are not
the magic constant (via `verifyIdentifier`, sub-reason "signiture not
found"), and separately `decodeHeader` returns `null` whenever byte 5 is
not the supported version 0x03, in which case the decode path fails with
"invalid header" even when all other fields are well-formed. -/
theorem c5_magic_version_rejection (C : Collab) (pw : JSVal) :
    (∀ data : List ℕ, data.take 5 ≠ SMZZL_IDENTIFIER →
      decryptData C data pw =
        .ret ⟨none, some (.decoding "signiture not found")⟩) ∧
    (∀ data : List ℕ, data[5]? ≠ some 3 → decodeHeader data = none) ∧
    (∀ data : List ℕ, data.take 5 = SMZZL_IDENTIFIER → data[5]? ≠ some 3 →
      decryptData C data pw = .ret ⟨none, some (.decoding "invalid header")⟩) :=
  ⟨fun d hd => decryptData_noMagic C d pw hd,
   fun d hd => decodeHeader_eq_none d hd,
   fun d h1 h2 => decryptData_badVersion C d pw h1 h2⟩

/-- Witness for magic/version rejection: a wrong-magic buffer and a
wrong-version buffer, both otherwise plausible. -/
theorem c5_magic_version_rejection_witness :
    (([0, 0, 0, 0, 0, 3] : List ℕ).take 5 ≠ SMZZL_IDENTIFIER) ∧
    decryptData toyCollab [0, 0, 0, 0, 0, 3] (.str "") =
      .ret ⟨none, some (.decoding "signiture not found")⟩ ∧
    decodeHeader [0x53, 0x4d, 0x5a, 0x5a, 0x4c, 4] = none ∧
    decryptData toyCollab [0x53, 0x4d, 0x5a, 0x5a, 0x4c, 4] (.str "") =
      .ret ⟨none, some (.decoding "invalid header")⟩ :=
  ⟨by decide,
   (c5_magic_version_rejection toyCollab (.str "")).1 _ (by decide),
   (c5_magic_version_rejection toyCollab (.str "")).2.1 _ (by decide),
   (c5_magic_version_rejection toyCollab (.str "")).2.2 _ (by decide)
     (by decide)⟩

/-- C6 (contradicting the claim): `decodeHeader` of a 6-byte buffer —
far shorter than the 92-byte header — does NOT fail: `subarray` clamps
instead of throwing, so it returns a header object with empty byte fields
and `NaN` (here `none`) numeric fields. The claim that any read past the
buffer end is a decode failure describes the intent of the dead
`try/catch`, not the behaviour. -/
theorem c6_short_buffer_returns_header :
    decodeHeader [0x53, 0x4d, 0x5a, 0x5a, 0x4c, 0x03] =
      some ⟨[0x53, 0x4d, 0x5a, 0x5a, 0x4c], 3, false, none, none, [], [], [],
        none, none, none⟩ := by decide

/-- C7 (contradicting the claim): when the image fails to load (a
`File`/`Blob` whose load errors, or a non-image value), `getImageDataCanvas`
returns `{ output: null, error }`, but `encrypt` destructures
`{ w, h, imageData }` from it without checking, obtains `undefined`, and
`toRGB(undefined)` throws a `TypeError` that escapes `encrypt` uncaught. -/
theorem c7_uncaught_exception (C : Collab) (rng : Rng) (pw : JSVal) :
    encrypt C rng .badBlob pw = .uncaught "TypeError" ∧
    encrypt C rng .notImage pw = .uncaught "TypeError" :=
  ⟨rfl, rfl⟩

/-- C8: for an RGBA buffer whose length is a multiple of 4,
`toRGBA (toRGB x)` preserves every RGB channel byte, forces every alpha
byte to 255, and reproduces `x` exactly when all its alpha bytes are
already 255. -/
theorem c8_pixel_packing_inverse (x : List ℕ) (h4 : 4 ∣ x.length) :
    ((∀ m : ℕ, m < x.length → m % 4 = 3 → x[m]? = some 255) →
      toRGBA (toRGB x) = x) ∧
    (toRGBA (toRGB x)).length = x.length ∧
    (∀ m : ℕ, m < x.length → m % 4 ≠ 3 → (toRGBA (toRGB x))[m]? = x[m]?) ∧
    (∀ m : ℕ, m < x.length → m % 4 = 3 → (toRGBA (toRGB x))[m]? = some 255) := by
  refine ⟨?_, toRGBA_toRGB_length x h4, ?_, ?_⟩
  · intro halpha
    apply List.ext_getElem?
    intro m
    by_cases hm : m < x.length
    · rw [toRGBA_toRGB_getElem? x h4 m hm]
      by_cases hr : m % 4 = 3
      · rw [if_pos hr, halpha m hm hr]
      · rw [if_neg hr]
    · rw [List.getElem?_eq_none (Nat.le_of_not_lt hm),
        List.getElem?_eq_none (show (toRGBA (toRGB x)).length ≤ m by
          rw [toRGBA_toRGB_length x h4]
          omega)]
  · intro m hm hr
    rw [toRGBA_toRGB_getElem? x h4 m hm, if_neg hr]
  · intro m hm hr
    rw [toRGBA_toRGB_getElem? x h4 m hm, if_pos hr]

/-- Witness for the pixel-packing inverse at a concrete 2-pixel buffer. -/
theorem c8_pixel_packing_inverse_witness :
    (4 ∣ ([1, 2, 3, 255, 4, 5, 6, 255] : List ℕ).length) ∧
    toRGBA (toRGB [1, 2, 3, 255, 4, 5, 6, 255]) =
      [1, 2, 3, 255, 4, 5, 6, 255] :=
  ⟨by decide,
   (c8_pixel_packing_inverse [1, 2, 3, 255, 4, 5, 6, 255] (by decide)).1
     (by decide)⟩

/-- C9 counterexample: the claim says `toRGB` of a buffer of ANY length
returns `⌊len/4⌋·3` bytes, but JS truncates the fractional allocation
`(len/4)·3` to `⌊3·len/4⌋`: on a 2-byte buffer the loop runs once and
writes one in-bounds byte, so the output has length 1, not
`⌊2/4⌋·3 = 0`. -/
theorem c9_packing_length_counterexample :
    ¬ ((toRGB [0, 0]).length = 2 / 4 * 3) := by decide

/-- C9 amended: `toRGB` returns `⌊3·len/4⌋` bytes with byte `m` copied
from input position `⌊m/3⌋·4 + m mod 3` (equal to `⌊len/4⌋·3` bytes
dropping every 4th byte when `4 ∣ len`), and `toRGBA` returns
`⌊4·len/3⌋` bytes with alpha 255 at positions ≡ 3 (mod 4) and byte `m`
copied from `⌊m/4⌋·3 + m mod 4` otherwise. -/
theorem c9_packing_lengths (a : List ℕ) :
    ((toRGB a).length = 3 * a.length / 4 ∧
      ∀ m : ℕ, m < 3 * a.length / 4 → (toRGB a)[m]? = a[m / 3 * 4 + m % 3]?) ∧
    ((toRGBA a).length = 4 * a.length / 3 ∧
      ∀ m : ℕ, m < 4 * a.length / 3 →
        (toRGBA a)[m]? = if m % 4 = 3 then some 255
          else a[m / 4 * 3 + m % 4]?) :=
  ⟨⟨toRGB_length a, fun m hm => toRGB_getElem?_lt a m hm⟩,
   ⟨toRGBA_length a, fun m hm => toRGBA_getElem?_lt a m hm⟩⟩

/-- Witness for the amended packing claim at concrete buffers. -/
theorem c9_packing_lengths_witness :
    (toRGB [1, 2, 3, 4, 5, 6]).length = 3 * [1, 2, 3, 4, 5, 6].length / 4 ∧
    (toRGB [1, 2, 3, 4, 5, 6])[3]? = some 5 ∧
    (toRGBA [1, 2, 3, 4, 5])[3]? = some 255 :=
  ⟨(c9_packing_lengths [1, 2, 3, 4, 5, 6]).1.1,
   ((c9_packing_lengths [1, 2, 3, 4, 5, 6]).1.2 3 (by decide)).trans
     (by decide),
   ((c9_packing_lengths [1, 2, 3, 4, 5]).2.2 3 (by decide)).trans (by decide)⟩

/-! ## Tamper-detection lemmas -/

theorem getElem?_append_lt {l₁ l₂ : List ℕ} {n : ℕ} (h : n < l₁.length) :
    (l₁ ++ l₂)[n]? = l₁[n]? := by
  rw [List.getElem?_append]
  exact if_pos h

theorem xor_two_pow_ne (b k : ℕ) : b ^^^ 2 ^ k ≠ b := by
  intro h
  have h2 : b ^^^ (b ^^^ 2 ^ k) = b ^^^ b := by rw [h]
  rw [Nat.xor_cancel_left, Nat.xor_self] at h2
  have h3 : (0 : ℕ) < 2 ^ k := Nat.pos_pow_of_pos k (by norm_num)
  omega

theorem set_xor_ne (l : List ℕ) (q k : ℕ) (hq : q < l.length) :
    l.set q (l.getD q 0 ^^^ 2 ^ k) ≠ l := by
  intro he
  have h1 : (l.set q (l.getD q 0 ^^^ 2 ^ k))[q]? = l[q]? := by rw [he]
  rw [getElem?_set_of_eq _ rfl, List.getElem?_eq_getElem hq] at h1
  simp only [Option.map_some'] at h1
  have h2 : l.getD q 0 = l.get ⟨q, hq⟩ := by
    rw [List.getD_eq_getElem?_getD, List.getElem?_eq_getElem hq]
    rfl
  rw [h2, Option.some.injEq] at h1
  exact xor_two_pow_ne (l.get ⟨q, hq⟩) k h1

theorem flip_segment (P Q R : List ℕ) (p k : ℕ) (hP : P.length ≤ p)
    (hQ : p - P.length < Q.length) :
    flipBit (P ++ (Q ++ R)) p k =
      P ++ (Q.set (p - P.length) (Q.getD (p - P.length) 0 ^^^ 2 ^ k) ++ R) := by
  rw [flipBit]
  have hget : (P ++ (Q ++ R)).getD p 0 = Q.getD (p - P.length) 0 := by
    rw [List.getD_eq_getElem?_getD, List.getD_eq_getElem?_getD,
      List.getElem?_append_right hP, getElem?_append_lt hQ]
  rw [hget, List.set_append_right _ _ hP, List.set_append_left _ _ hQ]

/-- C2: flipping any single bit of the stored tag (container bytes 32-48)
or of any ciphertext byte (container bytes from `headerHeight·3w` on) makes
`decrypt`'s container stage fail with `CryptoError('decrypt')` and never
return altered plaintext; and decrypting a password-protected container
with a wrong non-empty password fails with exactly the same `CryptoError`
kind and sub-reason, under the AEAD axiom that decryption returns nothing
unless key, nonce and ciphertext‖tag match the encryption performed. -/
theorem c2_tamper_and_wrong_password (C : Collab) (rng : Rng) (w h : ℕ)
    (imageData : List ℕ) (pw : String)
    (hw : 1 ≤ w) (hw32 : w < 2 ^ 32) (hh32 : h < 2 ^ 32)
    (hhash : ∀ s, (C.hash s).length = 32)
    (hlen : ∀ k iv pt, (C.aeadEnc k iv pt).length = pt.length + 16)
    (hauth : ∀ x, x ≠ C.aeadEnc (encKeyBytes C rng (.str pw))
        (encIv rng (.str pw)) (toRGB imageData) →
      C.aeadDec (encKeyBytes C rng (.str pw)) (encIv rng (.str pw)) x = none) :
    (∀ p k, 32 ≤ p → p < 48 →
      decryptData C (flipBit (encryptedRGB C rng w h imageData (.str pw)) p k)
        (.str pw) = .ret ⟨none, some (.crypto "decrypt")⟩) ∧
    (∀ p k, headerHeight92 w * 3 * w ≤ p →
      p < (encryptedRGB C rng w h imageData (.str pw)).length →
      decryptData C (flipBit (encryptedRGB C rng w h imageData (.str pw)) p k)
        (.str pw) = .ret ⟨none, some (.crypto "decrypt")⟩) ∧
    (∀ pw' : String, pw ≠ "" → pw' ≠ "" →
      getHash C.hash pw' KEY_LENGTH ≠ encKeyBytes C rng (.str pw) →
      (∀ k', k' ≠ encKeyBytes C rng (.str pw) →
        C.aeadDec k' (encIv rng (.str pw))
          (C.aeadEnc (encKeyBytes C rng (.str pw)) (encIv rng (.str pw))
            (toRGB imageData)) = none) →
      decryptData C (encryptedRGB C rng w h imageData (.str pw)) (.str pw') =
        .ret ⟨none, some (.crypto "decrypt")⟩) := by
  simp only [encIv] at hauth ⊢
  set keyB := encKeyBytes C rng (.str pw) with hkeyB
  set rng1 := encRngAfterKey rng (.str pw) with hrng1
  set iv := randBytes rng1 IV_LENGTH with hivdef
  set rgb := toRGB imageData with hrgb
  set ct := C.aeadEnc keyB iv rgb with hct
  set tag := ct.drop (ct.length - TAG_LENGTH) with htagdef
  set enc := ct.take (ct.length - TAG_LENGTH) with hencdef
  set up := encUsePassword (JSVal.str pw) with hup
  set rng2 := advance rng1 IV_LENGTH with hrng2
  set keyB' := if up then randBytes rng2 KEY_LENGTH else keyB with hkeyB'
  set camo := (randBytes (if up then advance rng2 KEY_LENGTH else rng2)
    (headerHeight92 w * (3 * w))).drop HEADER_MINIMUM_LENGTH with hcamodef
  have hkey32 : keyB.length = 32 := by
    rw [hkeyB, encKeyBytes]
    cases hpw : pwNonEmpty (JSVal.str pw) with
    | some s => simp [getHash, KEY_LENGTH, hhash s]
    | none => simp [randBytes_length, KEY_LENGTH]
  have hctlen : ct.length = rgb.length + 16 := hlen keyB iv rgb
  have htag16 : tag.length = 16 := by
    rw [htagdef, List.length_drop, TAG_LENGTH]
    omega
  have hiv16 : iv.length = 16 := by
    rw [hivdef, randBytes_length]
    rfl
  have hkey'32 : keyB'.length = 32 := by
    rw [hkeyB']
    cases up
    · simpa using hkey32
    · simp [randBytes_length, KEY_LENGTH]
  have hcamolen : 92 + camo.length = headerHeight92 w * 3 * w := by
    rw [hcamodef, List.length_drop, randBytes_length, HEADER_MINIMUM_LENGTH,
      Nat.mul_assoc]
    have := le_headerHeight92_mul w hw
    omega
  have hcontainer : encryptedRGB C rng w h imageData (.str pw) =
      metaBlock w h iv tag keyB' up (headerHeight92 w) ++ (camo ++ enc) := by
    rw [encryptedRGB]
    simp only [splitCiphertext, ← hkeyB, ← hrng1, ← hivdef, ← hrgb, ← hct,
      ← htagdef, ← hencdef, ← hup, ← hrng2]
    rw [encodeHeader_headerData rng2 w h iv tag keyB up hiv16 htag16
      (by rw [← hkeyB']; exact hkey'32)]
    rw [← hkeyB', ← hcamodef, List.append_assoc]
  have hmblen : (metaBlock w h iv tag keyB' up (headerHeight92 w)).length = 92 :=
    metaBlock_length w h iv tag keyB' up (headerHeight92 w) hiv16 htag16 hkey'32
  have hx : enc ++ tag = ct := by
    rw [hencdef, htagdef]
    exact List.take_append_drop _ _
  have hvk : validKeyLength keyB := Or.inr (Or.inr hkey32)
  have hrkgen : ∀ t : List ℕ, resolveKey C ⟨SMZZL_IDENTIFIER, 3, up, some w,
      some h, iv, t, keyB', some (headerHeight92 w), some 0, some 0⟩
      (JSVal.str pw) = .ok keyB := by
    intro t
    rw [resolveKey]
    by_cases hpw : pw = ""
    · have hup0 : up = false := by
        simp [hup, encUsePassword, pwNonEmpty, hpw]
      rw [hup0]
      simp only [Bool.false_eq_true, if_false]
      rw [hkeyB', hup0]
      simp
    · have hup1 : up = true := by
        simp [hup, encUsePassword, pwNonEmpty, hpw]
      rw [hup1]
      simp only [if_true]
      rw [show pwNonEmpty (JSVal.str pw) = some pw from by
        simp [pwNonEmpty, hpw]]
      rw [hkeyB, encKeyBytes, show pwNonEmpty (JSVal.str pw) = some pw from by
        simp [pwNonEmpty, hpw]]
  refine ⟨?_, ?_, ?_⟩
  · intro p k hp1 hp2
    have hpreA : (SMZZL_IDENTIFIER ++ SMZZL_VERSION ++
        (if up then ([0x80, 0x00] : List ℕ) else [0x00, 0x00]) ++
        encodeUint w ++ encodeUint h ++ iv).length = 32 := by
      have hfl : (if up then ([0x80, 0x00] : List ℕ) else [0x00, 0x00]).length
          = 2 := by
        rcases up <;> rfl
      simp [SMZZL_IDENTIFIER, SMZZL_VERSION, hfl, encodeUint, hiv16]
    have hshapeA : encryptedRGB C rng w h imageData (JSVal.str pw) =
        (SMZZL_IDENTIFIER ++ SMZZL_VERSION ++
          (if up then ([0x80, 0x00] : List ℕ) else [0x00, 0x00]) ++
          encodeUint w ++ encodeUint h ++ iv) ++
        (tag ++ (keyB' ++ (encodeUint (headerHeight92 w) ++
          (List.replicate NUMBER_LENGTH 0 ++ (encodeUint 0 ++
            (camo ++ enc)))))) := by
      rw [hcontainer]
      simp [metaBlock, List.append_assoc]
    rw [hshapeA, flip_segment _ _ _ p k (by rw [hpreA]; omega)
      (by rw [hpreA, htag16]; omega), hpreA]
    rw [show (SMZZL_IDENTIFIER ++ SMZZL_VERSION ++
        (if up then ([0x80, 0x00] : List ℕ) else [0x00, 0x00]) ++
        encodeUint w ++ encodeUint h ++ iv) ++
        (tag.set (p - 32) (tag.getD (p - 32) 0 ^^^ 2 ^ k) ++ (keyB' ++
          (encodeUint (headerHeight92 w) ++ (List.replicate NUMBER_LENGTH 0 ++
            (encodeUint 0 ++ (camo ++ enc)))))) =
      metaBlock w h iv (tag.set (p - 32) (tag.getD (p - 32) 0 ^^^ 2 ^ k)) keyB'
        up (headerHeight92 w) ++ (camo ++ enc) from by
      simp [metaBlock, List.append_assoc]]
    rw [decryptData_eq C w h (headerHeight92 w) iv
      (tag.set (p - 32) (tag.getD (p - 32) 0 ^^^ 2 ^ k)) keyB' camo enc up
      (JSVal.str pw) hiv16 (by rw [List.length_set]; exact htag16) hkey'32
      hw32 hh32 (by have := headerHeight92_le w hw; omega) hcamolen]
    rw [hrkgen]
    dsimp only
    rw [if_pos hvk]
    have hne : enc ++ tag.set (p - 32) (tag.getD (p - 32) 0 ^^^ 2 ^ k) ≠ ct := by
      rw [← hx]
      intro hEq
      exact set_xor_ne tag (p - 32) k (by omega) (List.append_cancel_left hEq)
    rw [hauth _ hne]
  · intro p k hp1 hp2
    have hclen : (encryptedRGB C rng w h imageData (JSVal.str pw)).length =
        headerHeight92 w * 3 * w + enc.length := by
      rw [hcontainer]
      simp only [List.length_append, hmblen]
      omega
    rw [hclen] at hp2
    have hpreB : (metaBlock w h iv tag keyB' up (headerHeight92 w) ++
        camo).length = headerHeight92 w * 3 * w := by
      rw [List.length_append, hmblen]
      omega
    have hshapeB : encryptedRGB C rng w h imageData (JSVal.str pw) =
        (metaBlock w h iv tag keyB' up (headerHeight92 w) ++ camo) ++
          (enc ++ []) := by
      rw [hcontainer]
      simp [List.append_assoc]
    rw [hshapeB, flip_segment _ _ _ p k (by rw [hpreB]; omega)
      (by rw [hpreB]; omega), hpreB]
    rw [show (metaBlock w h iv tag keyB' up (headerHeight92 w) ++ camo) ++
        (enc.set (p - headerHeight92 w * 3 * w)
          (enc.getD (p - headerHeight92 w * 3 * w) 0 ^^^ 2 ^ k) ++ []) =
      metaBlock w h iv tag keyB' up (headerHeight92 w) ++
        (camo ++ enc.set (p - headerHeight92 w * 3 * w)
          (enc.getD (p - headerHeight92 w * 3 * w) 0 ^^^ 2 ^ k)) from by
      simp [List.append_assoc]]
    rw [decryptData_eq C w h (headerHeight92 w) iv tag keyB' camo
      (enc.set (p - headerHeight92 w * 3 * w)
        (enc.getD (p - headerHeight92 w * 3 * w) 0 ^^^ 2 ^ k)) up
      (JSVal.str pw) hiv16 htag16 hkey'32 hw32 hh32
      (by have := headerHeight92_le w hw; omega) hcamolen]
    rw [hrkgen]
    dsimp only
    rw [if_pos hvk]
    have hq : p - headerHeight92 w * 3 * w < enc.length := by omega
    have hne : enc.set (p - headerHeight92 w * 3 * w)
        (enc.getD (p - headerHeight92 w * 3 * w) 0 ^^^ 2 ^ k) ++ tag ≠ ct := by
      rw [← hx]
      intro hEq
      have h1 : (enc.set (p - headerHeight92 w * 3 * w)
          (enc.getD (p - headerHeight92 w * 3 * w) 0 ^^^ 2 ^ k) ++
            tag).take enc.length = (enc ++ tag).take enc.length := by
        rw [hEq]
      rw [List.take_left' (by simp), List.take_left' rfl] at h1
      exact set_xor_ne enc (p - headerHeight92 w * 3 * w) k hq h1
    rw [hauth _ hne]
  · intro pw' hpw hpw' hkne hwk
    rw [hcontainer]
    rw [decryptData_eq C w h (headerHeight92 w) iv tag keyB' camo enc up
      (JSVal.str pw') hiv16 htag16 hkey'32 hw32 hh32
      (by have := headerHeight92_le w hw; omega) hcamolen]
    have hup1 : up = true := by
      simp [hup, encUsePassword, pwNonEmpty, hpw]
    have hrk' : resolveKey C ⟨SMZZL_IDENTIFIER, 3, up, some w, some h, iv, tag,
        keyB', some (headerHeight92 w), some 0, some 0⟩ (JSVal.str pw') =
        .ok (getHash C.hash pw' KEY_LENGTH) := by
      rw [resolveKey, hup1]
      simp only [if_true]
      rw [show pwNonEmpty (JSVal.str pw') = some pw' from by
        simp [pwNonEmpty, hpw']]
    rw [hrk']
    dsimp only
    rw [if_pos (show validKeyLength (getHash C.hash pw' KEY_LENGTH) from
      Or.inr (Or.inr (by simp [getHash, KEY_LENGTH, hhash pw'])))]
    rw [hx, hwk _ hkne]

/-- Witness for tamper detection: a concrete container under the strict
AEAD, with a tag bit flipped at byte 32, a ciphertext bit flipped at the
first ciphertext byte, and the wrong password "qq". -/
theorem c2_tamper_and_wrong_password_witness :
    (32 : ℕ) ≤ 32 ∧
    decryptData strictCollab
      (flipBit (encryptedRGB strictCollab zeroRng 1 1 [9, 8, 7, 255]
        (.str "p")) 32 0) (.str "p") =
      .ret ⟨none, some (.crypto "decrypt")⟩ ∧
    decryptData strictCollab
      (flipBit (encryptedRGB strictCollab zeroRng 1 1 [9, 8, 7, 255]
        (.str "p")) (headerHeight92 1 * 3 * 1) 0) (.str "p") =
      .ret ⟨none, some (.crypto "decrypt")⟩ ∧
    decryptData strictCollab (encryptedRGB strictCollab zeroRng 1 1
      [9, 8, 7, 255] (.str "p")) (.str "qq") =
      .ret ⟨none, some (.crypto "decrypt")⟩ := by
  have main := c2_tamper_and_wrong_password strictCollab zeroRng 1 1
    [9, 8, 7, 255] "p" (by decide) (by decide) (by decide)
    (fun s => by simp [strictCollab, toyHash])
    (fun k iv pt => by simp [strictCollab, toyEnc])
    (fun x hx => by
      show strictDec (encKeyBytes strictCollab zeroRng (JSVal.str "p"))
        (encIv zeroRng (JSVal.str "p")) x = none
      rw [strictDec, if_neg]
      rintro ⟨h1, h2⟩
      exact hx (h2.trans (by decide)))
  refine ⟨le_refl 32, main.1 32 0 (by decide) (by decide),
    main.2.1 (headerHeight92 1 * 3 * 1) 0 (le_refl _) (by decide),
    main.2.2 "qq" (by decide) (by decide) (by decide)
      (fun k' hk => by
        show strictDec k' (encIv zeroRng (JSVal.str "p"))
          (strictCollab.aeadEnc (encKeyBytes strictCollab zeroRng
            (JSVal.str "p")) (encIv zeroRng (JSVal.str "p"))
            (toRGB [9, 8, 7, 255])) = none
        rw [strictDec, if_neg]
        rintro ⟨h1, h2⟩
        exact hk (h1.trans (by decide)))⟩

/-- C10: when `pw` is not a string (null, undefined, a number) or is the
empty string, `encrypt` silently proceeds in random-key mode: it behaves
exactly as `encrypt(image, "")`, the produced container's flag byte (byte
6, holding bit 15) is 0, the 32-byte key field at container bytes 48-80
holds the fresh random key drawn first from the source, and the container
decrypts successfully with `decrypt(container, "")`. -/
theorem c10_random_key_mode (C : Collab) (rng : Rng) (w h : ℕ)
    (imageData : List ℕ) (pw : JSVal)
    (hpw : pwNonEmpty pw = none)
    (hw : 1 ≤ w) (hw32 : w < 2 ^ 32) (hh31 : h + 31 < 2 ^ 32)
    (himg : imageData.length = 4 * w * h)
    (hhash : ∀ s, (C.hash s).length = 32)
    (hlen : ∀ k iv pt, (C.aeadEnc k iv pt).length = pt.length + 16)
    (hrt : ∀ k iv pt, C.aeadDec k iv (C.aeadEnc k iv pt) = some pt)
    (hpng : ∀ w' h' d, w' < 2 ^ 32 → h' < 2 ^ 32 → ∃ bs,
      C.pngEncode w' h' d = some bs ∧
      C.pngDecode bs = some (w', h', TRUE_COLOR_WITH_ALPHA, d)) :
    encrypt C rng (.element w h imageData) pw =
      encrypt C rng (.element w h imageData) (.str "") ∧
    ∃ blob out rgba,
      encrypt C rng (.element w h imageData) pw = .ret ⟨some blob, none⟩ ∧
      C.pngDecode blob = some (w, h + headerHeight92 w, TRUE_COLOR_WITH_ALPHA,
        rgba) ∧
      (toRGB rgba)[6]? = some 0 ∧
      ((toRGB rgba).drop 48).take 32 = randBytes rng KEY_LENGTH ∧
      C.pngEncode w h (toRGBA (toRGB imageData)) = some out ∧
      decrypt C (.blob blob) (.str "") = .ret ⟨some out, none⟩ := by
  have heq : encrypt C rng (.element w h imageData) pw =
      encrypt C rng (.element w h imageData) (.str "") := by
    simp only [encrypt, getImageDataCanvas, hpw,
      show pwNonEmpty (JSVal.str "") = none from rfl]
  obtain ⟨blob, out, h1, h2, h3, h4, h5, h6, h7⟩ :=
    roundtrip_main C rng w h imageData "" hw hw32 hh31 himg hhash hlen hrt hpng
  refine ⟨heq, blob, out, toRGBA (encryptedRGB C rng w h imageData (.str "")),
    heq.trans h1, h4, ?_, ?_, h2, h3⟩
  · rw [h5, h6]
    simp [encUsePassword, pwNonEmpty]
  · rw [h5, h7]
    simp [encUsePassword, pwNonEmpty, encKeyBytes]

/-- Witness for random-key mode at `pw = null` with the toy
collaborators. -/
theorem c10_random_key_mode_witness :
    pwNonEmpty JSVal.null = none ∧
    encrypt toyCollab zeroRng (.element 1 1 [1, 2, 3, 255]) JSVal.null =
      encrypt toyCollab zeroRng (.element 1 1 [1, 2, 3, 255]) (.str "") ∧
    ∃ blob out rgba,
      encrypt toyCollab zeroRng (.element 1 1 [1, 2, 3, 255]) JSVal.null =
        .ret ⟨some blob, none⟩ ∧
      toyCollab.pngDecode blob = some (1, 1 + headerHeight92 1,
        TRUE_COLOR_WITH_ALPHA, rgba) ∧
      (toRGB rgba)[6]? = some 0 ∧
      ((toRGB rgba).drop 48).take 32 = randBytes zeroRng KEY_LENGTH ∧
      toyCollab.pngEncode 1 1 (toRGBA (toRGB [1, 2, 3, 255])) = some out ∧
      decrypt toyCollab (.blob blob) (.str "") = .ret ⟨some out, none⟩ := by
  have main := c10_random_key_mode toyCollab zeroRng 1 1 [1, 2, 3, 255]
    JSVal.null rfl (by decide) (by decide) (by decide) (by decide)
    (fun s => by simp [toyCollab, toyHash])
    (fun k iv pt => toyEnc_length k iv pt)
    (fun k iv pt => toyDec_toyEnc k iv pt)
    (fun w' h' d hw' hh' => ⟨encodeUint w' ++ encodeUint h' ++ d, rfl,
      toyPng_roundtrip w' h' d hw' hh'⟩)
  exact ⟨rfl, main.1, main.2⟩

end Smzzl
